import Mathlib

/-!
Verification development for the taco-performance repository (TypeScript).

The source programs are shallowly embedded: JavaScript numbers are modelled
as rationals, arrays as lists, and the cooperative single-threaded
scheduling of the steady-rate controller is modelled by an explicit state
machine driven by an oracle (the schedule) that decides which pending
completions are delivered during each pacing sleep.  Fallible operations
return Option.  Definitions follow src/runner.ts (src/unnamed/part_001) and
src/types.ts; names of the source functions are kept.
-/

namespace TacoPerf

/-- Model of JavaScript Math.floor on rationals, through the computable
Batteries floor so that concrete runs evaluate. -/
def jsFloor (x : ℚ) : ℤ := Rat.floor x

/-- Model of JavaScript Math.ceil on rationals. -/
def jsCeil (x : ℚ) : ℤ := -Rat.floor (-x)

/-- Model of the JavaScript Math.round: round half toward positive infinity. -/
def jsRound (x : ℚ) : ℤ := jsFloor (x + 1/2)

/-- Model of Math.round (Math.sqrt x) for a nonnegative rational x.
The result n is characterised by (2n-1)^2 ≤ 4x < (2n+1)^2, which is exactly
round-half-up of the real square root; it is computed through Nat.sqrt of
the integer part of 4x. -/
def jsRoundSqrt (x : ℚ) : ℕ := (Nat.sqrt (jsFloor (4 * x)).toNat + 1) / 2

theorem jsFloor_eq (q : ℚ) : jsFloor q = ⌊q⌋ := by
  rw [jsFloor, Rat.floor_def', ← Rat.floor_def]

theorem jsCeil_eq (q : ℚ) : jsCeil q = ⌈q⌉ := by
  have h : Rat.floor (-q) = ⌊-q⌋ := by rw [Rat.floor_def', ← Rat.floor_def]
  rw [jsCeil, h, Int.floor_neg, neg_neg]

/-- Stats record, from src/types.ts. -/
structure Stats where
  min : ℚ
  max : ℚ
  mean : ℚ
  p50 : ℚ
  p95 : ℚ
  p99 : ℚ
  stdDev : ℚ
  deriving DecidableEq, Repr

/-- Comparator used by the source: values.sort((a, b) => a - b), an
ascending stable sort. -/
def ascLe (a b : ℚ) : Bool := decide (a ≤ b)

/-- calculateStats from src/runner.ts lines 543-566, translated clause by
clause: empty input gives the all-zero record; otherwise sort ascending,
take mean and population standard deviation (both rounded via Math.round),
and nearest-rank percentiles with index ceil(p/100*N)-1 clamped to
[0, N-1]. -/
def calculateStats (values : List ℚ) : Stats :=
  if values = [] then
    { min := 0, max := 0, mean := 0, p50 := 0, p95 := 0, p99 := 0, stdDev := 0 }
  else
    let sorted := values.mergeSort ascLe
    let sum := sorted.foldl (· + ·) (0 : ℚ)
    let mean := sum / (sorted.length : ℚ)
    let squaredDiffs := sorted.map (fun v => (v - mean) ^ 2)
    let avgSquaredDiff := squaredDiffs.foldl (· + ·) (0 : ℚ) / (sorted.length : ℚ)
    let percentile := fun (p : ℚ) =>
      let index : ℤ := jsCeil (p / 100 * sorted.length) - 1
      sorted.getD (max 0 (min index (sorted.length - 1))).toNat 0
    { min := sorted.getD 0 0,
      max := sorted.getD (sorted.length - 1) 0,
      mean := (jsRound mean : ℤ),
      p50 := percentile 50,
      p95 := percentile 95,
      p99 := percentile 99,
      stdDev := (jsRoundSqrt avgSquaredDiff : ℕ) }

/-- Reference definition written from the words of the spec (section 4.5):
empty input gives all fields zero; otherwise sort ascending, mean is the
arithmetic mean rounded to the nearest integer, standard deviation is the
population standard deviation (divide by N) rounded to the nearest integer,
and percentile p reads the sorted sequence at ceil(p/100 × N) − 1 clamped
to [0, N−1].  Written with an insertion sort and with the mean and variance
taken over the unsorted input, so that agreement with calculateStats is a
genuine refinement statement. -/
def computeStatsSpec (values : List ℚ) : Stats :=
  if values = [] then
    { min := 0, max := 0, mean := 0, p50 := 0, p95 := 0, p99 := 0, stdDev := 0 }
  else
    let n : ℚ := values.length
    let sorted := values.insertionSort (· ≤ ·)
    let mean := values.sum / n
    let variance := (values.map (fun v => (v - mean) ^ 2)).sum / n
    let nearestRank := fun (p : ℚ) =>
      sorted.getD (max 0 (min (⌈p * n / 100⌉ - 1) ((values.length : ℤ) - 1))).toNat 0
    { min := sorted.getD 0 0,
      max := sorted.getD (sorted.length - 1) 0,
      mean := (jsRound mean : ℤ),
      p50 := nearestRank 50,
      p95 := nearestRank 95,
      p99 := nearestRank 99,
      stdDev := (jsRoundSqrt variance : ℕ) }

theorem foldl_add_eq_sum (l : List ℚ) : ∀ a : ℚ, l.foldl (· + ·) a = a + l.sum := by
  induction l with
  | nil => intro a; simp
  | cons x xs ih => intro a; simp [List.foldl_cons, ih]; ring

theorem mergeSort_ascLe_sorted (l : List ℚ) :
    (l.mergeSort ascLe).Sorted (· ≤ ·) := by
  have h := @List.sorted_mergeSort ℚ ascLe
    (fun a b c hab hbc => by
      simp only [ascLe, decide_eq_true_eq] at *; exact le_trans hab hbc)
    (fun a b => by
      simp only [ascLe, Bool.or_eq_true, decide_eq_true_eq]; exact le_total a b)
    l
  rw [List.Sorted]
  exact h.imp (fun {a b} hab => by simpa [ascLe] using hab)

theorem mergeSort_ascLe_eq_insertionSort (l : List ℚ) :
    l.mergeSort ascLe = l.insertionSort (· ≤ ·) := by
  refine List.eq_of_perm_of_sorted ?_ (mergeSort_ascLe_sorted l) (List.sorted_insertionSort _ l)
  exact (List.mergeSort_perm l ascLe).trans (List.perm_insertionSort _ l).symm

theorem sorted_getD_mono {l : List ℚ} (h : l.Sorted (· ≤ ·)) {i j : ℕ}
    (hij : i ≤ j) (hj : j < l.length) : l.getD i 0 ≤ l.getD j 0 := by
  have hi : i < l.length := lt_of_le_of_lt hij hj
  rw [List.getD_eq_getElem l 0 hi, List.getD_eq_getElem l 0 hj]
  rcases eq_or_lt_of_le hij with rfl | hlt
  · exact le_refl _
  · exact List.pairwise_iff_getElem.mp h i j hi hj hlt

/-- Clamp of the nearest-rank index into [0, n-1], as the source writes it. -/
def clampIdx (c : ℤ) (n : ℕ) : ℕ := (max 0 (min c ((n : ℤ) - 1))).toNat

theorem clampIdx_lt {n : ℕ} (hn : 0 < n) (c : ℤ) : clampIdx c n < n := by
  rw [clampIdx]
  omega

theorem clampIdx_mono {c d : ℤ} (h : c ≤ d) (n : ℕ) : clampIdx c n ≤ clampIdx d n := by
  rw [clampIdx, clampIdx]
  omega

theorem calculateStats_eq_clamp (values : List ℚ) (h : ¬values = []) :
    calculateStats values =
      (let sorted := values.mergeSort ascLe
       let mean := sorted.foldl (· + ·) (0 : ℚ) / (sorted.length : ℚ)
       let avgSq := (sorted.map (fun v => (v - mean) ^ 2)).foldl (· + ·) (0 : ℚ) /
         (sorted.length : ℚ)
       { min := sorted.getD 0 0,
         max := sorted.getD (sorted.length - 1) 0,
         mean := (jsRound mean : ℤ),
         p50 := sorted.getD (clampIdx (jsCeil (50 / 100 * sorted.length) - 1) sorted.length) 0,
         p95 := sorted.getD (clampIdx (jsCeil (95 / 100 * sorted.length) - 1) sorted.length) 0,
         p99 := sorted.getD (clampIdx (jsCeil (99 / 100 * sorted.length) - 1) sorted.length) 0,
         stdDev := (jsRoundSqrt avgSq : ℕ) }) := by
  rw [calculateStats, if_neg h]
  rfl

/-- C1: calculateStats agrees with the reference definition written from the
spec (empty input gives the all-zero record; otherwise min and max read the
ends of the ascending sort, the mean is the arithmetic mean rounded to
nearest, stdDev is the rounded population standard deviation, and each
percentile p reads the sorted list at ceil(p/100 × N) − 1 clamped to
[0, N−1]); consequently min ≤ p50 ≤ p95 ≤ p99 ≤ max on every non-empty
input, with min the first and max the last element of the sorted input. -/
theorem calculateStats_meets_spec (values : List ℚ) :
    calculateStats values = computeStatsSpec values ∧
    (values ≠ [] →
      ((calculateStats values).min ≤ (calculateStats values).p50 ∧
       (calculateStats values).p50 ≤ (calculateStats values).p95 ∧
       (calculateStats values).p95 ≤ (calculateStats values).p99 ∧
       (calculateStats values).p99 ≤ (calculateStats values).max) ∧
      (calculateStats values).min = (values.mergeSort ascLe).getD 0 0 ∧
      (calculateStats values).max = (values.mergeSort ascLe).getD (values.length - 1) 0) := by
  constructor
  · by_cases h : values = []
    · subst h; rfl
    · have hperm : List.Perm (values.insertionSort (· ≤ ·)) values :=
        List.perm_insertionSort _ values
      have hlen : (values.insertionSort (· ≤ ·)).length = values.length := hperm.length_eq
      have hsum : (values.insertionSort (· ≤ ·)).foldl (· + ·) (0 : ℚ) = values.sum := by
        rw [foldl_add_eq_sum, zero_add, hperm.sum_eq]
      have hsum2 : ∀ f : ℚ → ℚ,
          ((values.insertionSort (· ≤ ·)).map f).foldl (· + ·) (0 : ℚ) = (values.map f).sum := by
        intro f
        rw [foldl_add_eq_sum, zero_add, (hperm.map f).sum_eq]
      have e : ∀ p : ℚ, p / 100 * (values.length : ℚ) = p * values.length / 100 := by
        intro p; ring
      rw [calculateStats_eq_clamp values h, computeStatsSpec, if_neg h]
      simp only [mergeSort_ascLe_eq_insertionSort, hlen, hsum, hsum2, clampIdx, jsCeil_eq, e,
        Stats.mk.injEq]
  · intro h
    have hsorted : (values.mergeSort ascLe).Sorted (· ≤ ·) := mergeSort_ascLe_sorted values
    have hlen : (values.mergeSort ascLe).length = values.length :=
      (List.mergeSort_perm values ascLe).length_eq
    have hn : 0 < (values.mergeSort ascLe).length := by
      rw [hlen]
      exact List.length_pos.mpr h
    have hmono : ∀ p q : ℚ, p ≤ q →
        jsCeil (p / 100 * (values.mergeSort ascLe).length) - 1 ≤
          jsCeil (q / 100 * (values.mergeSort ascLe).length) - 1 := by
      intro p q hpq
      have : (p / 100 * (values.mergeSort ascLe).length : ℚ) ≤
          q / 100 * (values.mergeSort ascLe).length := by
        apply mul_le_mul_of_nonneg_right _ (by positivity)
        exact div_le_div_of_nonneg_right hpq (by norm_num)
      simp only [jsCeil_eq]
      exact sub_le_sub_right (Int.ceil_le_ceil this) 1
  -- wrong lemma name placeholder: fixed below
    rw [calculateStats_eq_clamp values h]
    refine ⟨⟨?_, ?_, ?_, ?_⟩, rfl, ?_⟩
    · exact sorted_getD_mono hsorted (Nat.zero_le _) (clampIdx_lt hn _)
    · exact sorted_getD_mono hsorted (clampIdx_mono (hmono 50 95 (by norm_num)) _)
        (clampIdx_lt hn _)
    · exact sorted_getD_mono hsorted (clampIdx_mono (hmono 95 99 (by norm_num)) _)
        (clampIdx_lt hn _)
    · refine sorted_getD_mono hsorted ?_ (by omega)
      have := clampIdx_lt hn (jsCeil (99 / 100 * (values.mergeSort ascLe).length) - 1)
      omega
    · show (values.mergeSort ascLe).getD ((values.mergeSort ascLe).length - 1) 0 =
        (values.mergeSort ascLe).getD (values.length - 1) 0
      rw [hlen]

/-- Witness for the non-empty hypothesis of the C1 theorem, at the spec
test vector [10, 20, 30, 40, 50, 60, 70, 80, 90, 100]. -/
theorem calculateStats_meets_spec_witness :
    (([10, 20, 30, 40, 50, 60, 70, 80, 90, 100] : List ℚ) ≠ []) ∧
    (((calculateStats [10, 20, 30, 40, 50, 60, 70, 80, 90, 100]).min ≤
        (calculateStats [10, 20, 30, 40, 50, 60, 70, 80, 90, 100]).p50 ∧
      (calculateStats [10, 20, 30, 40, 50, 60, 70, 80, 90, 100]).p50 ≤
        (calculateStats [10, 20, 30, 40, 50, 60, 70, 80, 90, 100]).p95 ∧
      (calculateStats [10, 20, 30, 40, 50, 60, 70, 80, 90, 100]).p95 ≤
        (calculateStats [10, 20, 30, 40, 50, 60, 70, 80, 90, 100]).p99 ∧
      (calculateStats [10, 20, 30, 40, 50, 60, 70, 80, 90, 100]).p99 ≤
        (calculateStats [10, 20, 30, 40, 50, 60, 70, 80, 90, 100]).max) ∧
     (calculateStats [10, 20, 30, 40, 50, 60, 70, 80, 90, 100]).min =
        (([10, 20, 30, 40, 50, 60, 70, 80, 90, 100] : List ℚ).mergeSort ascLe).getD 0 0 ∧
     (calculateStats [10, 20, 30, 40, 50, 60, 70, 80, 90, 100]).max =
        (([10, 20, 30, 40, 50, 60, 70, 80, 90, 100] : List ℚ).mergeSort ascLe).getD
          (([10, 20, 30, 40, 50, 60, 70, 80, 90, 100] : List ℚ).length - 1) 0) :=
  ⟨by simp, (calculateStats_meets_spec [10, 20, 30, 40, 50, 60, 70, 80, 90, 100]).2 (by simp)⟩

/-! ## Request Executor (src/runner.ts lines 466-537) -/

/-- RequestResult from src/types.ts. -/
structure RequestResult where
  index : ℕ
  startTime : ℚ
  endTime : ℚ
  duration : ℚ
  success : Bool
  error : Option String := none
  tacoSigningTimeMs : Option ℚ := none
  deriving DecidableEq, Repr

/-- Behaviour of one opaque signing operation (the remote black box of spec
section 6): how long it runs before settling, and whether it throws (with
the thrown message) or succeeds (carrying the measured taco signing
sub-duration, which the source only assigns on the success path). -/
structure SigningBehavior where
  latency : ℚ
  outcome : Except String ℚ
  deriving Repr

/-- executeSigningRequestInner: runs the signing operation inside a
try/catch; on success the result carries the measured sub-duration, on an
exception the error is tagged with the signing-layer class. -/
def executeSigningRequestInner (beh : SigningBehavior) (startTime : ℚ) : RequestResult :=
  match beh.outcome with
  | .ok tacoMs =>
    { index := 0, startTime := startTime, endTime := startTime + beh.latency,
      duration := beh.latency, success := true, error := none,
      tacoSigningTimeMs := some tacoMs }
  | .error e =>
    { index := 0, startTime := startTime, endTime := startTime + beh.latency,
      duration := beh.latency, success := false,
      error := some ("[taco-signing] " ++ e), tacoSigningTimeMs := none }

/-- Message produced by withTimeout when the race is lost. -/
def timeoutMessage (timeoutSeconds : ℚ) : String :=
  "Request timed out after " ++ toString timeoutSeconds ++ "s"

/-- executeSigningRequest: races the inner call against a timeout of
timeoutSeconds (the REQUEST_TIMEOUT_SECONDS global).  The inner call never
rejects, so the outer catch fires exactly when the timeout promise rejects
first; the resulting failure is tagged with the timeout class.  The race is
resolved in favour of the inner call when it settles strictly before the
timeout fires. -/
def executeSigningRequest (timeoutSeconds : ℚ) (beh : SigningBehavior)
    (startTime : ℚ) : RequestResult :=
  let timeoutMs := timeoutSeconds * 1000
  if beh.latency < timeoutMs then
    executeSigningRequestInner beh startTime
  else
    { index := 0, startTime := startTime, endTime := startTime + timeoutMs,
      duration := timeoutMs, success := false,
      error := some ("[timeout] " ++ timeoutMessage timeoutSeconds),
      tacoSigningTimeMs := none }

/-- C8: the executor always resolves to exactly one RequestResult (it is a
total function of the behaviour of the opaque operation), and every failed
outcome carries an error string tagged with its failure class: the
signing-layer tag when the operation threw within the timeout, the timeout
tag when the timeout elapsed first. -/
theorem executeSigningRequest_never_throws (tmo : ℚ) (beh : SigningBehavior) (t : ℚ) :
    ((executeSigningRequest tmo beh t).success = false →
      ∃ e, (executeSigningRequest tmo beh t).error = some e ∧
        ((∃ s, e = "[taco-signing] " ++ s) ∨ ∃ s, e = "[timeout] " ++ s)) ∧
    (∀ e, beh.latency < tmo * 1000 → beh.outcome = .error e →
      (executeSigningRequest tmo beh t).success = false ∧
      (executeSigningRequest tmo beh t).error = some ("[taco-signing] " ++ e)) ∧
    (¬beh.latency < tmo * 1000 →
      (executeSigningRequest tmo beh t).success = false ∧
      (executeSigningRequest tmo beh t).error =
        some ("[timeout] " ++ timeoutMessage tmo)) := by
  refine ⟨?_, ?_, ?_⟩
  · intro hs
    by_cases hlt : beh.latency < tmo * 1000
    · cases houtcome : beh.outcome with
      | ok v =>
        exfalso
        simp [executeSigningRequest, executeSigningRequestInner, hlt, houtcome] at hs
      | error e =>
        refine ⟨"[taco-signing] " ++ e, ?_, Or.inl ⟨e, rfl⟩⟩
        simp [executeSigningRequest, executeSigningRequestInner, hlt, houtcome]
    · refine ⟨"[timeout] " ++ timeoutMessage tmo, ?_, Or.inr ⟨timeoutMessage tmo, rfl⟩⟩
      simp [executeSigningRequest, hlt]
  · intro e hlt houtcome
    constructor <;> simp [executeSigningRequest, executeSigningRequestInner, hlt, houtcome]
  · intro hlt
    constructor <;> simp [executeSigningRequest, hlt]

/-- Witness for C8 at a concrete behaviour that throws "boom" after 5ms
against a 120s timeout. -/
theorem executeSigningRequest_never_throws_witness :
    ((5 : ℚ) < 120 * 1000) ∧
    (executeSigningRequest 120 ⟨5, .error "boom"⟩ 0).success = false ∧
    (executeSigningRequest 120 ⟨5, .error "boom"⟩ 0).error =
      some ("[taco-signing] " ++ "boom") :=
  ⟨by norm_num,
    (executeSigningRequest_never_throws 120 ⟨5, .error "boom"⟩ 0).2.1 "boom"
      (by norm_num) rfl⟩

/-! ## Failure Attributor (src/runner.ts lines 779-805) -/

/-- Whitespace class of the regular-expression token \s (ASCII range). -/
def isJsSpace (c : Char) : Bool :=
  c == ' ' || c == '\t' || c == '\n' || c == '\r' || c == '\x0b' || c == '\x0c'

/-- Character class [a-fA-F0-9] of the node-address pattern. -/
def isHexDigit (c : Char) : Bool :=
  (decide ('0' ≤ c) && decide (c ≤ '9')) ||
  (decide ('a' ≤ c) && decide (c ≤ 'f')) ||
  (decide ('A' ≤ c) && decide (c ≤ 'F'))

/-- Consume an exact literal from the front of the character stream. -/
def dropLit : List Char → List Char → Option (List Char)
  | [], l => some l
  | _ :: _, [] => none
  | p :: ps, c :: cs => if p = c then dropLit ps cs else none

/-- Consume a non-empty greedy run of characters matching p (the +
quantifier on a character class; no backtracking is needed because each
class here is disjoint from the character that follows it). -/
def takeWhile1 (p : Char → Bool) (l : List Char) : Option (List Char × List Char) :=
  let t := l.takeWhile p
  if t.isEmpty then none else some (t, l.drop t.length)

/-- One attempted match of the pattern
Node\s+(0x[a-fA-F0-9]+)\s+did not respond before timeout
at the head of the stream, returning the captured address and the stream
after the match. -/
def nodeTimeoutAt (l : List Char) : Option (String × List Char) :=
  match dropLit "Node".toList l with
  | none => none
  | some l1 =>
    match takeWhile1 isJsSpace l1 with
    | none => none
    | some (_, l2) =>
      match dropLit "0x".toList l2 with
      | none => none
      | some l3 =>
        match takeWhile1 isHexDigit l3 with
        | none => none
        | some (hex, l4) =>
          match takeWhile1 isJsSpace l4 with
          | none => none
          | some (_, l5) =>
            match dropLit "did not respond before timeout".toList l5 with
            | none => none
            | some l6 => some (⟨'0' :: 'x' :: hex⟩, l6)

/-- Scan for all non-overlapping matches, resuming after each match and
advancing one character on failure, as matchAll with the g flag does.  The
fuel is the length of the stream, which suffices because every step
consumes at least one character. -/
def scanNodeTimeouts : ℕ → List Char → List String
  | 0, _ => []
  | _, [] => []
  | fuel + 1, c :: rest =>
    match nodeTimeoutAt (c :: rest) with
    | some (addr, remaining) => addr :: scanNodeTimeouts fuel remaining
    | none => scanNodeTimeouts fuel rest

/-- All matches of the explicit node-timeout pattern in one error message
(branch (a) of the attributor). -/
def extractNodeTimeouts (s : String) : List String :=
  scanNodeTimeouts (s.toList.length + 1) s.toList

/-- JSON whitespace. -/
def isJsonWs (c : Char) : Bool :=
  c == ' ' || c == '\t' || c == '\n' || c == '\r'

/-- Decoding of one JSON string escape.  The \u form and invalid escapes
make the whole fragment unparseable in this model. -/
def jsonEscape : Char → Option Char
  | 'n' => some '\n'
  | 't' => some '\t'
  | 'r' => some '\r'
  | 'b' => some '\x08'
  | 'f' => some '\x0c'
  | '"' => some '"'
  | '\\' => some '\\'
  | '/' => some '/'
  | _ => none

/-- Body of a JSON string after the opening quote: returns the decoded
characters and the stream after the closing quote. -/
def jsonStringBody : List Char → Option (List Char × List Char)
  | [] => none
  | '"' :: rest => some ([], rest)
  | '\\' :: [] => none
  | '\\' :: c :: rest =>
    match jsonEscape c with
    | none => none
    | some d =>
      match jsonStringBody rest with
      | none => none
      | some (body, rem) => some (d :: body, rem)
  | c :: rest =>
    match jsonStringBody rest with
    | none => none
    | some (body, rem) => some (c :: body, rem)

/-- A JSON string token (with the opening quote). -/
def jsonString (l : List Char) : Option (String × List Char) :=
  match l with
  | '"' :: rest =>
    match jsonStringBody rest with
    | none => none
    | some (body, rem) => some (⟨body⟩, rem)
  | _ => none

/-- Member list of a flat JSON object with string keys and string values,
positioned after the opening brace.  The model of JSON.parse is restricted
to the flat string-to-string object shape that the upstream error format
produces; any other shape counts as unparseable and is silently ignored,
as the empty catch block does. -/
def jsonMembers : ℕ → List Char → Option (List (String × String) × List Char)
  | 0, _ => none
  | fuel + 1, l =>
    match jsonString (l.dropWhile isJsonWs) with
    | none => none
    | some (key, r1) =>
      match (r1.dropWhile isJsonWs) with
      | ':' :: r2 =>
        match jsonString (r2.dropWhile isJsonWs) with
        | none => none
        | some (value, r3) =>
          match (r3.dropWhile isJsonWs) with
          | ',' :: r4 =>
            match jsonMembers fuel r4 with
            | none => none
            | some (rest, r5) => some ((key, value) :: rest, r5)
          | '}' :: r4 => some ([(key, value)], r4)
          | _ => none
      | _ => none

/-- JSON.parse of a brace-delimited fragment, restricted to flat objects
with string values; entries come back in textual order, as
Object.entries does for parsed JSON. -/
def parseFlatJsonObject (l : List Char) : Option (List (String × String)) :=
  match l.dropWhile isJsonWs with
  | '{' :: r1 =>
    match r1.dropWhile isJsonWs with
    | '}' :: r2 => if (r2.dropWhile isJsonWs).isEmpty then some [] else none
    | _ =>
      match jsonMembers (l.length + 1) r1 with
      | none => none
      | some (pairs, r2) =>
        if (r2.dropWhile isJsonWs).isEmpty then some pairs else none
  | _ => none

/-- One attempted match of the pattern
TACo signing failed with errors:\s*(\x7b[^\x7d]+\x7d)
at the head of the stream: the capture runs from the opening brace to the
first closing brace, which must not be immediately adjacent. -/
def structuredErrorsAt (l : List Char) : Option (List Char) :=
  match dropLit "TACo signing failed with errors:".toList l with
  | none => none
  | some l1 =>
    match l1.dropWhile isJsSpace with
    | '{' :: l2 =>
      match takeWhile1 (fun c => c != '}') l2 with
      | none => none
      | some (body, l3) =>
        match l3 with
        | '}' :: _ => some ('{' :: body ++ ['}'])
        | _ => none
    | _ => none

/-- First match of the structured-errors pattern anywhere in the stream
(the g-less match scans left to right for the first position that
matches). -/
def findStructuredErrors : ℕ → List Char → Option (List Char)
  | 0, _ => none
  | _, [] => none
  | fuel + 1, c :: rest =>
    match structuredErrorsAt (c :: rest) with
    | some frag => some frag
    | none => findStructuredErrors fuel rest

/-- Substring test, as String.prototype.includes (case sensitive). -/
def hasSubstring (hay needle : List Char) : Bool :=
  match hay with
  | [] => needle.isEmpty
  | _ :: rest => needle.isPrefixOf hay || hasSubstring rest needle

/-- Entries contributed by the embedded structured object of one message
(branch (b) of the attributor): address paired with whether the message
substring classifies it as a timeout. -/
def extractStructuredEntries (s : String) : List (String × Bool) :=
  match findStructuredErrors (s.toList.length + 1) s.toList with
  | none => []
  | some frag =>
    match parseFlatJsonObject frag with
    | none => []
    | some pairs =>
      pairs.map (fun p => (p.1, hasSubstring p.2.toList "timeout".toList))

/-- All attribution events of one error message, in the order the source
processes them: every explicit timeout match first, then the structured
entries. -/
def messageEvents (s : String) : List (String × Bool) :=
  (extractNodeTimeouts s).map (fun a => (a, true)) ++ extractStructuredEntries s

/-- NodeFailure from src/types.ts. -/
structure NodeFailure where
  address : String
  timeouts : ℕ
  otherErrors : ℕ
  deriving DecidableEq, Repr

/-- Total failures of a node, the sort key of the attributor output. -/
def totalFailures (nf : NodeFailure) : ℕ := nf.timeouts + nf.otherErrors

/-- Update of the insertion-ordered node map for one event, as
Map.get/Map.set does: an existing entry is updated in place, a new address
is appended at the end. -/
def bumpNode (m : List NodeFailure) (addr : String) (isTimeout : Bool) : List NodeFailure :=
  match m with
  | [] => [⟨addr, if isTimeout then 1 else 0, if isTimeout then 0 else 1⟩]
  | nf :: rest =>
    if nf.address = addr then
      (if isTimeout then { nf with timeouts := nf.timeouts + 1 }
       else { nf with otherErrors := nf.otherErrors + 1 }) :: rest
    else nf :: bumpNode rest addr isTimeout

/-- The node map accumulated over all error messages, in first-seen
order. -/
def nodeEntries (errors : List String) : List NodeFailure :=
  errors.foldl (fun m e => (messageEvents e).foldl (fun m2 ev => bumpNode m2 ev.1 ev.2) m) []

/-- Comparator modelling sort((a, b) => b.total - a.total): descending by
total failures; Array.prototype.sort is stable, so ties keep first-seen
order. -/
def nodeDescLe (a b : NodeFailure) : Bool := decide (totalFailures b ≤ totalFailures a)

/-- parseNodeFailures from src/runner.ts lines 779-805. -/
def parseNodeFailures (errors : List String) : List NodeFailure :=
  (nodeEntries errors).mergeSort nodeDescLe

theorem nodeDescLe_trans (a b c : NodeFailure) :
    nodeDescLe a b → nodeDescLe b c → nodeDescLe a c := by
  simp only [nodeDescLe, decide_eq_true_eq]
  omega

theorem nodeDescLe_total (a b : NodeFailure) : nodeDescLe a b || nodeDescLe b a := by
  simp only [nodeDescLe, Bool.or_eq_true, decide_eq_true_eq]
  omega

/-- C6: on the single message "Node 0xABC did not respond before timeout"
the attributor returns exactly one entry, node 0xABC with one timeout and
no other errors; and on every input the output is a permutation of the
first-seen-ordered node map, sorted descending by total failures, with
ties keeping first-seen order (the entries of any fixed total appear
exactly in their first-seen order).  The function is total: unparseable
structured fragments contribute nothing instead of raising. -/
theorem parseNodeFailures_spec :
    parseNodeFailures ["Node 0xABC did not respond before timeout"] =
      [{ address := "0xABC", timeouts := 1, otherErrors := 0 }] ∧
    ∀ errors : List String,
      (parseNodeFailures errors).Pairwise
        (fun a b => totalFailures b ≤ totalFailures a) ∧
      List.Perm (parseNodeFailures errors) (nodeEntries errors) ∧
      ∀ t : ℕ,
        (parseNodeFailures errors).filter (fun nf => totalFailures nf == t) =
          (nodeEntries errors).filter (fun nf => totalFailures nf == t) := by
  refine ⟨?_, ?_⟩
  · have h : nodeEntries ["Node 0xABC did not respond before timeout"] =
        [{ address := "0xABC", timeouts := 1, otherErrors := 0 }] := by decide
    rw [parseNodeFailures, h, List.mergeSort_singleton]
  · intro errors
    refine ⟨?_, List.mergeSort_perm _ _, ?_⟩
    · have h := List.sorted_mergeSort nodeDescLe_trans nodeDescLe_total (nodeEntries errors)
      exact h.imp (fun {a b} hab => by
        simpa [nodeDescLe] using hab)
    · intro t
      set p : NodeFailure → Bool := fun nf => totalFailures nf == t with hp
      have hmem : ∀ nf ∈ (nodeEntries errors).filter p, totalFailures nf = t := by
        intro nf hnf
        have := List.of_mem_filter hnf
        simpa [hp] using this
      have hc : ((nodeEntries errors).filter p).Pairwise (fun a b => nodeDescLe a b = true) := by
        apply List.pairwise_of_forall_mem_list
        intro a ha b hb
        have ha' := hmem a ha
        have hb' := hmem b hb
        simp [nodeDescLe, ha', hb']
      have hsubl : List.Sublist ((nodeEntries errors).filter p) (parseNodeFailures errors) :=
        List.sublist_mergeSort nodeDescLe_trans nodeDescLe_total hc
          (List.filter_sublist _)
      have hsub2 : List.Sublist ((nodeEntries errors).filter p)
          ((parseNodeFailures errors).filter p) := by
        have := hsubl.filter p
        rwa [List.filter_eq_self.mpr (fun a ha => by simp [hp, hmem a ha])] at this
      have hlen : ((parseNodeFailures errors).filter p).length =
          ((nodeEntries errors).filter p).length :=
        ((List.mergeSort_perm (nodeEntries errors) nodeDescLe).filter p).length_eq
      exact (hsub2.eq_of_length hlen.symm).symm

/-! ## Run Aggregator (printResults, src/runner.ts lines 807-880) -/

/-- ErrorWithCount from src/types.ts. -/
structure ErrorWithCount where
  message : String
  count : ℕ
  deriving DecidableEq, Repr

/-- TimelineRequest from src/types.ts. -/
structure TimelineRequest where
  index : ℕ
  timestamp : ℚ
  elapsedSec : ℚ
  duration : ℚ
  tacoSigningTimeMs : Option ℚ
  success : Bool
  error : Option String
  inFlight : ℕ
  deriving DecidableEq, Repr

/-- StopReason from src/types.ts. -/
inductive StopReason
  | duration
  | consecutiveFailures
  | completed
  deriving DecidableEq, Repr

/-- The requests sub-record of RunResult. -/
structure RequestCounts where
  total : ℕ
  success : ℕ
  failed : ℕ
  deriving DecidableEq, Repr

/-- RunResult from src/types.ts.  Optional fields that the source leaves
undefined are Option values defaulting to none. -/
structure RunResult where
  mode : String
  targetRate : ℚ
  duration : ℚ
  label : Option String
  requests : RequestCounts
  latency : Stats
  successLatency : Option Stats
  failureLatency : Option Stats
  tacoSigningTime : Option Stats
  successTacoSigningTime : Option Stats
  failureTacoSigningTime : Option Stats
  nodeFailures : List NodeFailure
  errors : List ErrorWithCount
  timeline : Option (List TimelineRequest) := none
  stopReason : Option StopReason := none
  consecutiveFailuresAtStop : Option ℕ := none
  stoppedEarly : Option Bool := none
  deriving DecidableEq, Repr

/-- Update of the insertion-ordered error histogram for one message
(exact-string grouping). -/
def bumpError (m : List ErrorWithCount) (e : String) : List ErrorWithCount :=
  match m with
  | [] => [⟨e, 1⟩]
  | ec :: rest =>
    if ec.message = e then { ec with count := ec.count + 1 } :: rest
    else ec :: bumpError rest e

/-- Default record standing for the undefined value JavaScript yields when
the outcome list is empty (the spec calls a zero-outcome run a caller
error). -/
def emptyRequestResult : RequestResult :=
  { index := 0, startTime := 0, endTime := 0, duration := 0, success := false }

/-- printResults from src/runner.ts lines 807-880, restricted to its pure
aggregation (the console output is I/O). -/
def printResults (results : List RequestResult) (mode : String) (rate : ℚ)
    (label : Option String := none) : RunResult :=
  let last := results.getLastD emptyRequestResult
  let first := results.headD emptyRequestResult
  let totalDuration := (last.endTime - first.startTime) / 1000
  let successResults := results.filter (·.success)
  let failedResults := results.filter (fun r => !r.success)
  let latencyStats := calculateStats (results.map (·.duration))
  let successLatencyStats :=
    if 0 < successResults.length then some (calculateStats (successResults.map (·.duration)))
    else none
  let failureLatencyStats :=
    if 0 < failedResults.length then some (calculateStats (failedResults.map (·.duration)))
    else none
  let tacoTimes := results.filterMap (·.tacoSigningTimeMs)
  let tacoStats := if 0 < tacoTimes.length then some (calculateStats tacoTimes) else none
  let successTacoTimes := successResults.filterMap (·.tacoSigningTimeMs)
  let failureTacoTimes := failedResults.filterMap (·.tacoSigningTimeMs)
  let successTacoStats :=
    if 0 < successTacoTimes.length then some (calculateStats successTacoTimes) else none
  let failureTacoStats :=
    if 0 < failureTacoTimes.length then some (calculateStats failureTacoTimes) else none
  let allErrors := failedResults.map (fun r => r.error.getD "Unknown error")
  { mode := mode, targetRate := rate,
    duration := (jsRound (totalDuration * 10) : ℚ) / 10,
    label := label,
    requests := ⟨results.length, successResults.length, failedResults.length⟩,
    latency := latencyStats,
    successLatency := successLatencyStats,
    failureLatency := failureLatencyStats,
    tacoSigningTime := tacoStats,
    successTacoSigningTime := successTacoStats,
    failureTacoSigningTime := failureTacoStats,
    nodeFailures := parseNodeFailures allErrors,
    errors := allErrors.foldl bumpError [] }

/-! ## Steady-Rate Controller (runSteadyMode, src/runner.ts lines 587-710)

The cooperative scheduling is made explicit: a Schedule oracle decides the
clock reading at the top of every loop iteration and which pending
completions are delivered during the pacing sleep of that iteration (in
JavaScript these are the then-continuations that run while the loop is
suspended).  Proving a property for every Schedule covers every
realisable interleaving. -/

/-- SteadyModeOptions from src/types.ts. -/
structure SteadyModeOptions where
  rate : ℚ
  duration : Option ℚ := none
  requestCount : Option ℕ := none
  maxDuration : Option ℚ := none
  maxConsecutiveFailures : Option ℕ := none

/-- JavaScript (duration || 60): the default applies when duration is
absent or zero. -/
def durationOrDefault (d : Option ℚ) : ℚ :=
  match d with
  | none => 60
  | some x => if x = 0 then 60 else x

/-- Whether a stop condition is supplied (line 593). -/
def hasStopConditions (opts : SteadyModeOptions) : Bool :=
  opts.maxDuration.isSome || opts.maxConsecutiveFailures.isSome

/-- The request-count bound of lines 594-596: none when stop conditions
govern the run, otherwise the explicit count or floor(duration × rate). -/
def totalRequests (opts : SteadyModeOptions) : Option ℕ :=
  if hasStopConditions opts then none
  else some (opts.requestCount.getD (jsFloor (durationOrDefault opts.duration * opts.rate)).toNat)

/-- Mutable state of one steady run: the counters, the pending-request map
(index paired with its dispatch time), the recorded outcome and timeline
arrays, and the dispatch log (an observation of which payload slot each
dispatch read, used to state the round-robin property). -/
structure SteadyState where
  payloadIndex : ℕ
  nextRequestIndex : ℕ
  completedCount : ℕ
  consecutiveFailures : ℕ
  pending : List (ℕ × ℚ)
  results : List RequestResult
  timeline : List TimelineRequest
  dispatches : List (ℕ × ℕ)
  stopReason : StopReason
  shouldStop : Bool
  deriving Repr

/-- Initial state of the loop (testStartTime is the time origin, so all
clock readings are relative to it). -/
def initialSteadyState : SteadyState :=
  { payloadIndex := 0, nextRequestIndex := 0, completedCount := 0,
    consecutiveFailures := 0, pending := [], results := [], timeline := [],
    dispatches := [], stopReason := .completed, shouldStop := false }

/-- processResult (lines 621-657): push the outcome and its timeline entry
(the in-flight count reads the pending map after this request was removed,
as the delete in the then-continuation precedes the call), update the
consecutive-failure counter, and report whether the stop threshold was
reached. -/
def processResult (opts : SteadyModeOptions) (r : RequestResult) (st : SteadyState) :
    SteadyState × Bool :=
  let consec := if r.success then 0 else st.consecutiveFailures + 1
  let entry : TimelineRequest :=
    { index := r.index, timestamp := r.endTime, elapsedSec := r.endTime / 1000,
      duration := r.duration, tacoSigningTimeMs := r.tacoSigningTimeMs,
      success := r.success, error := r.error, inFlight := st.pending.length }
  let st1 := { st with
    completedCount := st.completedCount + 1,
    results := st.results ++ [r],
    consecutiveFailures := consec,
    timeline := st.timeline ++ [entry] }
  match opts.maxConsecutiveFailures with
  | some m =>
    if m ≤ consec then ({ st1 with stopReason := .consecutiveFailures }, true)
    else (st1, false)
  | none => (st1, false)

/-- The then-continuation of one dispatched request (lines 673-678): when
the promise for index idx resolves, the request leaves the pending map, its
result (stamped with the dispatch-time index) is processed, and shouldStop
is assigned the returned flag.  A non-pending index delivers nothing: each
promise resolves exactly once. -/
def completeRequest (opts : SteadyModeOptions) (tmo : ℚ)
    (backend : ℕ → SigningBehavior) (idx : ℕ) (st : SteadyState) : SteadyState :=
  match st.pending.lookup idx with
  | none => st
  | some t0 =>
    let r := { executeSigningRequest tmo (backend idx) t0 with index := idx }
    let st1 := { st with pending := st.pending.filter (fun p => p.1 != idx) }
    let pr := processResult opts r st1
    { pr.1 with shouldStop := pr.2 }

/-- Clock reading and delivered completions for one loop iteration. -/
structure IterEvents where
  now : ℚ
  completions : List ℕ

/-- The scheduling oracle: per-iteration events, the order in which the
drain of a completed run awaits its stragglers, and which abandoned
in-flight requests still deliver after a stop condition. -/
structure Schedule where
  iter : ℕ → IterEvents
  drainOrder : List ℕ
  lateArrivals : List ℕ

/-- Dispatch of one request (lines 669-684): the payload slot is read
round-robin, both counters advance, the request enters the pending map at
the current clock reading, and the completions scheduled for this
iteration are delivered while the loop sleeps. -/
def steadyDispatch (P : ℕ) (opts : SteadyModeOptions) (tmo : ℚ)
    (backend : ℕ → SigningBehavior) (ev : IterEvents) (st : SteadyState) : SteadyState :=
  let slot := st.payloadIndex % P
  let idx := st.nextRequestIndex
  let st1 := { st with
    payloadIndex := st.payloadIndex + 1,
    nextRequestIndex := idx + 1,
    pending := st.pending ++ [(idx, ev.now)],
    dispatches := st.dispatches ++ [(idx, slot)] }
  ev.completions.foldl (fun s i => completeRequest opts tmo backend i s) st1

/-- Result of one pass through the while body: either the loop breaks or
it continues with the new state. -/
inductive StepOutcome
  | broke (st : SteadyState)
  | next (st : SteadyState)

/-- The maxDuration guard of line 661: elapsed seconds at the top of the
iteration have reached the bound. -/
def maxDurationHit (opts : SteadyModeOptions) (now : ℚ) : Bool :=
  match opts.maxDuration with
  | some md => decide (md ≤ now / 1000)
  | none => false

/-- The count guard of line 665: the next index has reached the bound. -/
def countHit (total : Option ℕ) (n : ℕ) : Bool :=
  match total with
  | some t => decide (t ≤ n)
  | none => false

/-- One pass of the while body (lines 659-685), entered with shouldStop
false: the maxDuration check, then the count check, then dispatch and
sleep. -/
def steadyStep (P : ℕ) (opts : SteadyModeOptions) (tmo : ℚ)
    (backend : ℕ → SigningBehavior) (total : Option ℕ) (ev : IterEvents)
    (st : SteadyState) : StepOutcome :=
  if maxDurationHit opts ev.now then
    .broke { st with stopReason := .duration }
  else if countHit total st.nextRequestIndex then
    .broke st
  else
    .next (steadyDispatch P opts tmo backend ev st)

/-- The while loop, driven by fuel (the loop of a stop-condition run has no
a-priori iteration bound).  Returns the state at exit and whether the loop
in fact exited (false means the fuel ran out mid-loop). -/
def steadyLoop (P : ℕ) (opts : SteadyModeOptions) (tmo : ℚ)
    (backend : ℕ → SigningBehavior) (total : Option ℕ) (iter : ℕ → IterEvents) :
    ℕ → ℕ → SteadyState → SteadyState × Bool
  | 0, _, st => (st, false)
  | fuel + 1, k, st =>
    if st.shouldStop then (st, true)
    else
      match steadyStep P opts tmo backend total (iter k) st with
      | .broke st' => (st', true)
      | .next st' => steadyLoop P opts tmo backend total iter fuel (k + 1) st'

/-- The drain of a completed run (lines 689-695, first half): awaiting
Promise.all lets every remaining then-continuation run; the drainOrder
oracle fixes the resolution order of those scheduled first, then any
leftovers resolve in pending order. -/
def drainPending (opts : SteadyModeOptions) (tmo : ℚ)
    (backend : ℕ → SigningBehavior) (sched : Schedule) (st : SteadyState) : SteadyState :=
  let st1 := sched.drainOrder.foldl (fun s i => completeRequest opts tmo backend i s) st
  (st1.pending.map (·.1)).foldl (fun s i => completeRequest opts tmo backend i s) st1

/-- The guarded for-loop over the awaited results (lines 692-694): each
formerly pending outcome is recorded only if its index is not already
present. -/
def recordRemaining (opts : SteadyModeOptions) (tmo : ℚ)
    (backend : ℕ → SigningBehavior) (pend : List (ℕ × ℚ)) (st : SteadyState) : SteadyState :=
  pend.foldl (fun s p =>
    let r := { executeSigningRequest tmo (backend p.1) p.2 with index := p.1 }
    if s.results.any (fun q => q.index == r.index) then s
    else (processResult opts r s).1) st

/-- SteadyModeResult from src/types.ts. -/
structure SteadyModeResult where
  results : List RequestResult
  timeline : List TimelineRequest
  stopReason : StopReason
  consecutiveFailuresAtStop : Option ℕ
  deriving Repr

/-- A full steady run: the returned record, the final state (whose ghost
dispatch log the round-robin claim reads, and whose arrays include any
late arrivals recorded after a stop condition abandoned them), and whether
the loop exited within the fuel. -/
structure SteadyRun where
  result : SteadyModeResult
  final : SteadyState
  terminated : Bool

/-- runSteadyMode (lines 587-710).  After the loop: a completed run with
stragglers drains them (the await triggers their continuations, then the
guarded for-loop re-records only absent indices); a run stopped by a stop
condition abandons them, but their continuations may still run after the
function returns, mutating the shared arrays — the lateArrivals oracle
delivers those.  The scalar fields of the returned record are captured at
return time, before any late arrival. -/
def runSteadyMode (P : ℕ) (opts : SteadyModeOptions) (tmo : ℚ)
    (backend : ℕ → SigningBehavior) (sched : Schedule) (fuel : ℕ) : SteadyRun :=
  let total := totalRequests opts
  let lp := steadyLoop P opts tmo backend total sched.iter fuel 0 initialSteadyState
  let st := lp.1
  let doDrain := decide (st.pending ≠ []) && decide (st.stopReason = .completed)
  let stReturn :=
    if doDrain then
      recordRemaining opts tmo backend st.pending
        (drainPending opts tmo backend sched st)
    else st
  let stFinal :=
    if doDrain then stReturn
    else sched.lateArrivals.foldl (fun s i => completeRequest opts tmo backend i s) stReturn
  let res : SteadyModeResult :=
    { results := stFinal.results
      timeline := stFinal.timeline
      stopReason := stReturn.stopReason
      consecutiveFailuresAtStop :=
        if stReturn.stopReason = .consecutiveFailures then
          some stReturn.consecutiveFailures
        else none }
  { result := res, final := stFinal, terminated := lp.2 }

/-- A request whose signing operation throws settles as a failure whether
or not it beats the timeout. -/
theorem executeSigningRequest_fails (tmo : ℚ) (beh : SigningBehavior) (t : ℚ)
    (h : ∃ e, beh.outcome = .error e) :
    (executeSigningRequest tmo beh t).success = false := by
  obtain ⟨e, he⟩ := h
  by_cases hlt : beh.latency < tmo * 1000 <;>
    simp [executeSigningRequest, executeSigningRequestInner, hlt, he]

/-- The serial schedule: the completion of request k is delivered during
iteration k's own sleep (a backend that settles each request before the
next dispatch), so nothing is pending at loop exit. -/
def serialSched (now : ℕ → ℚ) : Schedule :=
  { iter := fun k => { now := now k, completions := [k] },
    drainOrder := [], lateArrivals := [] }

/-- The aggregated total is the length of the outcome list. -/
theorem printResults_total (results : List RequestResult) (mode : String) (rate : ℚ) :
    (printResults results mode rate).requests.total = results.length := by
  simp [printResults]

/-- C2: with maxConsecutiveFailures = 3 and a backend whose every request
fails, the steady run (under the serial schedule, where each request
settles before the next dispatch) terminates with stopReason
consecutive-failures, consecutiveFailuresAtStop = 3, exactly three
recorded outcomes, and the aggregation still produces a RunSummary whose
counts.total is 3 — the model is a total function, so no exception is
raised. -/
theorem steady_three_consecutive_failures
    (P : ℕ) (tmo : ℚ) (backend : ℕ → SigningBehavior)
    (hfail : ∀ n, ∃ e, (backend n).outcome = .error e)
    (now : ℕ → ℚ) (rate : ℚ) (dur : Option ℚ) (rc : Option ℕ) (f : ℕ) :
    let opts : SteadyModeOptions :=
      { rate := rate, duration := dur, requestCount := rc,
        maxDuration := none, maxConsecutiveFailures := some 3 }
    let run := runSteadyMode P opts tmo backend (serialSched now) (f + 4)
    run.terminated = true ∧
    run.result.stopReason = .consecutiveFailures ∧
    run.result.consecutiveFailuresAtStop = some 3 ∧
    run.result.results.length = 3 ∧
    (printResults run.result.results "steady" rate).requests.total = 3 := by
  intro opts run
  have h0 := executeSigningRequest_fails tmo (backend 0) (now 0) (hfail 0)
  have h1 := executeSigningRequest_fails tmo (backend 1) (now 1) (hfail 1)
  have h2 := executeSigningRequest_fails tmo (backend 2) (now 2) (hfail 2)
  have hrun : run = runSteadyMode P opts tmo backend (serialSched now) (f + 4) := rfl
  rw [printResults_total]
  simp only [hrun, runSteadyMode, steadyLoop, steadyStep, maxDurationHit, countHit,
    steadyDispatch, completeRequest, processResult, initialSteadyState, serialSched,
    totalRequests, hasStopConditions, drainPending, recordRemaining, h0, h1, h2]
  simp [h0, h1, h2]

/-- Witness for C2: one payload, 120s timeout, a backend that throws "x"
after 5ms on every request. -/
theorem steady_three_consecutive_failures_witness :
    (∀ n : ℕ, ∃ e, ((fun _ : ℕ => ({ latency := 5, outcome := .error "x" } : SigningBehavior)) n).outcome = .error e) ∧
    (let opts : SteadyModeOptions :=
      { rate := 1, duration := none, requestCount := none,
        maxDuration := none, maxConsecutiveFailures := some 3 }
     let run := runSteadyMode 1 opts 120 (fun _ => { latency := 5, outcome := .error "x" })
       (serialSched (fun _ => 0)) (0 + 4)
     run.terminated = true ∧
     run.result.stopReason = .consecutiveFailures ∧
     run.result.consecutiveFailuresAtStop = some 3 ∧
     run.result.results.length = 3 ∧
     (printResults run.result.results "steady" 1).requests.total = 3) :=
  ⟨fun _ => ⟨"x", rfl⟩,
    steady_three_consecutive_failures 1 120 (fun _ => { latency := 5, outcome := .error "x" })
      (fun _ => ⟨"x", rfl⟩) (fun _ => 0) 1 none none 0⟩

/-! ### State invariants of the steady loop -/

theorem processResult_fields (opts : SteadyModeOptions) (r : RequestResult) (st : SteadyState) :
    (processResult opts r st).1.payloadIndex = st.payloadIndex ∧
    (processResult opts r st).1.nextRequestIndex = st.nextRequestIndex ∧
    (processResult opts r st).1.dispatches = st.dispatches ∧
    (processResult opts r st).1.pending = st.pending ∧
    (processResult opts r st).1.results = st.results ++ [r] ∧
    (processResult opts r st).1.timeline.map TimelineRequest.index =
      st.timeline.map TimelineRequest.index ++ [r.index] := by
  rw [processResult]
  cases opts.maxConsecutiveFailures with
  | none => simp
  | some m =>
    by_cases h : m ≤ (if r.success = true then 0 else st.consecutiveFailures + 1) <;>
      simp [h]

/-- processResult raises the stop flag only after recording the
consecutive-failures stop reason. -/
theorem processResult_stop (opts : SteadyModeOptions) (r : RequestResult) (st : SteadyState) :
    (processResult opts r st).2 = true →
    (processResult opts r st).1.stopReason = .consecutiveFailures := by
  rw [processResult]
  cases opts.maxConsecutiveFailures with
  | none => simp
  | some m =>
    by_cases h : m ≤ (if r.success = true then 0 else st.consecutiveFailures + 1) <;>
      simp [h]

theorem processResult_stopReason_of_false (opts : SteadyModeOptions) (r : RequestResult)
    (st : SteadyState) :
    (processResult opts r st).2 = false →
    (processResult opts r st).1.stopReason = st.stopReason := by
  rw [processResult]
  cases opts.maxConsecutiveFailures with
  | none => simp
  | some m =>
    by_cases h : m ≤ (if r.success = true then 0 else st.consecutiveFailures + 1) <;>
      simp [h]

/-- With no consecutive-failures threshold processResult never signals a
stop. -/
theorem processResult_no_stop (opts : SteadyModeOptions) (r : RequestResult) (st : SteadyState)
    (h : opts.maxConsecutiveFailures = none) : (processResult opts r st).2 = false := by
  rw [processResult, h]

theorem lookup_some_mem {l : List (ℕ × ℚ)} {i : ℕ} {t : ℚ} (h : l.lookup i = some t) :
    i ∈ l.map Prod.fst := by
  induction l with
  | nil => simp [List.lookup] at h
  | cons p rest ih =>
    rw [List.lookup] at h
    by_cases he : p.1 = i
    · simp only [List.map_cons, List.mem_cons]
      exact Or.inl he.symm
    · have hb : (i == p.1) = false := by
        simp only [beq_eq_false_iff_ne, ne_eq]
        exact fun hc => he hc.symm
      rw [hb] at h
      simp only [List.map_cons, List.mem_cons]
      exact Or.inr (ih h)

theorem completeRequest_fields (opts : SteadyModeOptions) (tmo : ℚ)
    (backend : ℕ → SigningBehavior) (i : ℕ) (st : SteadyState) :
    (completeRequest opts tmo backend i st).payloadIndex = st.payloadIndex ∧
    (completeRequest opts tmo backend i st).nextRequestIndex = st.nextRequestIndex ∧
    (completeRequest opts tmo backend i st).dispatches = st.dispatches := by
  rw [completeRequest]
  cases h : st.pending.lookup i with
  | none => simp
  | some t0 =>
    have hp := processResult_fields opts
      { executeSigningRequest tmo (backend i) t0 with index := i }
      { st with pending := st.pending.filter (fun p => p.1 != i) }
    simp only []
    exact ⟨hp.1, hp.2.1, hp.2.2.1⟩

/-- completeRequest raises the stop flag only with the stop reason set, and
otherwise leaves the stop reason alone. -/
theorem completeRequest_stop_inv (opts : SteadyModeOptions) (tmo : ℚ)
    (backend : ℕ → SigningBehavior) (i : ℕ) (st : SteadyState)
    (hinv : st.shouldStop = true → st.stopReason = .consecutiveFailures) :
    (completeRequest opts tmo backend i st).shouldStop = true →
    (completeRequest opts tmo backend i st).stopReason = .consecutiveFailures := by
  rw [completeRequest]
  cases h : st.pending.lookup i with
  | none => exact hinv
  | some t0 =>
    intro hs
    simp only [] at hs ⊢
    cases hb : (processResult opts { executeSigningRequest tmo (backend i) t0 with index := i }
        { st with pending := st.pending.filter (fun p => p.1 != i) }).2 with
    | false => simp [hb] at hs
    | true => exact processResult_stop _ _ _ hb

/-- With no consecutive-failures threshold the stop flag can never rise. -/
theorem completeRequest_no_stop (opts : SteadyModeOptions) (tmo : ℚ)
    (backend : ℕ → SigningBehavior) (i : ℕ) (st : SteadyState)
    (hmc : opts.maxConsecutiveFailures = none) (h : st.shouldStop = false) :
    (completeRequest opts tmo backend i st).shouldStop = false := by
  rw [completeRequest]
  cases hl : st.pending.lookup i with
  | none => exact h
  | some t0 => simp [processResult_no_stop _ _ _ hmc]

/-- With no maxDuration and no count bound exhausted, only the stop
conditions govern; with no threshold, the stop reason is never touched
either. -/
theorem completeRequest_stopReason_none (opts : SteadyModeOptions) (tmo : ℚ)
    (backend : ℕ → SigningBehavior) (i : ℕ) (st : SteadyState)
    (hmc : opts.maxConsecutiveFailures = none) :
    (completeRequest opts tmo backend i st).stopReason = st.stopReason := by
  rw [completeRequest]
  cases hl : st.pending.lookup i with
  | none => rfl
  | some t0 =>
    have := processResult_stopReason_of_false opts
      { executeSigningRequest tmo (backend i) t0 with index := i }
      { st with pending := st.pending.filter (fun p => p.1 != i) }
      (processResult_no_stop _ _ _ hmc)
    simpa using this

theorem foldl_completeRequest_fields (opts : SteadyModeOptions) (tmo : ℚ)
    (backend : ℕ → SigningBehavior) (l : List ℕ) :
    ∀ st : SteadyState,
    (l.foldl (fun s i => completeRequest opts tmo backend i s) st).payloadIndex =
      st.payloadIndex ∧
    (l.foldl (fun s i => completeRequest opts tmo backend i s) st).nextRequestIndex =
      st.nextRequestIndex ∧
    (l.foldl (fun s i => completeRequest opts tmo backend i s) st).dispatches =
      st.dispatches := by
  induction l with
  | nil => intro st; exact ⟨rfl, rfl, rfl⟩
  | cons i rest ih =>
    intro st
    rw [List.foldl_cons]
    have h1 := completeRequest_fields opts tmo backend i st
    have h2 := ih (completeRequest opts tmo backend i st)
    exact ⟨h2.1.trans h1.1, h2.2.1.trans h1.2.1, h2.2.2.trans h1.2.2⟩

theorem foldl_completeRequest_stop_inv (opts : SteadyModeOptions) (tmo : ℚ)
    (backend : ℕ → SigningBehavior) (l : List ℕ) :
    ∀ st : SteadyState,
    (st.shouldStop = true → st.stopReason = .consecutiveFailures) →
    ((l.foldl (fun s i => completeRequest opts tmo backend i s) st).shouldStop = true →
     (l.foldl (fun s i => completeRequest opts tmo backend i s) st).stopReason =
       .consecutiveFailures) := by
  induction l with
  | nil => intro st h; exact h
  | cons i rest ih =>
    intro st h
    rw [List.foldl_cons]
    exact ih _ (completeRequest_stop_inv opts tmo backend i st h)

theorem foldl_completeRequest_no_stop (opts : SteadyModeOptions) (tmo : ℚ)
    (backend : ℕ → SigningBehavior) (hmc : opts.maxConsecutiveFailures = none)
    (l : List ℕ) :
    ∀ st : SteadyState, st.shouldStop = false →
    (l.foldl (fun s i => completeRequest opts tmo backend i s) st).shouldStop = false := by
  induction l with
  | nil => intro st h; exact h
  | cons i rest ih =>
    intro st h
    rw [List.foldl_cons]
    exact ih _ (completeRequest_no_stop opts tmo backend i st hmc h)

theorem foldl_completeRequest_stopReason_none (opts : SteadyModeOptions) (tmo : ℚ)
    (backend : ℕ → SigningBehavior) (hmc : opts.maxConsecutiveFailures = none)
    (l : List ℕ) :
    ∀ st : SteadyState,
    (l.foldl (fun s i => completeRequest opts tmo backend i s) st).stopReason =
      st.stopReason := by
  induction l with
  | nil => intro st; rfl
  | cons i rest ih =>
    intro st
    rw [List.foldl_cons]
    exact (ih _).trans (completeRequest_stopReason_none opts tmo backend i st hmc)

theorem steadyDispatch_fields (P : ℕ) (opts : SteadyModeOptions) (tmo : ℚ)
    (backend : ℕ → SigningBehavior) (ev : IterEvents) (st : SteadyState) :
    (steadyDispatch P opts tmo backend ev st).payloadIndex = st.payloadIndex + 1 ∧
    (steadyDispatch P opts tmo backend ev st).nextRequestIndex = st.nextRequestIndex + 1 ∧
    (steadyDispatch P opts tmo backend ev st).dispatches =
      st.dispatches ++ [(st.nextRequestIndex, st.payloadIndex % P)] := by
  rw [steadyDispatch]
  exact foldl_completeRequest_fields opts tmo backend ev.completions _

theorem steadyDispatch_stop_inv (P : ℕ) (opts : SteadyModeOptions) (tmo : ℚ)
    (backend : ℕ → SigningBehavior) (ev : IterEvents) (st : SteadyState)
    (h : st.shouldStop = false) :
    (steadyDispatch P opts tmo backend ev st).shouldStop = true →
    (steadyDispatch P opts tmo backend ev st).stopReason = .consecutiveFailures := by
  rw [steadyDispatch]
  apply foldl_completeRequest_stop_inv
  intro hcontra
  simp only [] at hcontra
  rw [h] at hcontra
  exact absurd hcontra (by simp)

/-- The stop flag rises only together with the consecutive-failures reason:
if the loop exits through the flag or a break under a request-count bound
of none, the stop reason is one of the two stop conditions. -/
theorem steadyLoop_exit_reason (P : ℕ) (opts : SteadyModeOptions) (tmo : ℚ)
    (backend : ℕ → SigningBehavior) (iter : ℕ → IterEvents) :
    ∀ (fuel k : ℕ) (st : SteadyState),
    (st.shouldStop = true → st.stopReason = .consecutiveFailures) →
    (steadyLoop P opts tmo backend none iter fuel k st).2 = true →
    ((steadyLoop P opts tmo backend none iter fuel k st).1.stopReason = .duration ∨
     (steadyLoop P opts tmo backend none iter fuel k st).1.stopReason =
       .consecutiveFailures) := by
  intro fuel
  induction fuel with
  | zero => intro k st _ h; simp [steadyLoop] at h
  | succ n ih =>
    intro k st hinv hterm
    rw [steadyLoop] at hterm ⊢
    by_cases hs : st.shouldStop = true
    · simp only [hs, if_true]
      exact Or.inr (hinv hs)
    · have hs' : st.shouldStop = false := by simpa using hs
      simp only [hs', Bool.false_eq_true, if_false] at hterm ⊢
      rw [steadyStep] at hterm ⊢
      by_cases hmd : maxDurationHit opts (iter k).now = true
      · simp only [hmd, if_true]
        exact Or.inl trivial
      · have hmd' : maxDurationHit opts (iter k).now = false := by simpa using hmd
        simp only [hmd', Bool.false_eq_true, if_false, countHit] at hterm ⊢
        exact ih (k + 1) _ (steadyDispatch_stop_inv P opts tmo backend (iter k) st hs')
          hterm

/-- Under count-based sizing (no stop conditions) the loop terminates once
the fuel covers the remaining requests, the dispatch counter lands exactly
on the bound, and the stop reason is untouched. -/
theorem steadyLoop_count_exact (P : ℕ) (opts : SteadyModeOptions) (tmo : ℚ)
    (backend : ℕ → SigningBehavior) (iter : ℕ → IterEvents)
    (hmc : opts.maxConsecutiveFailures = none) (hmd : opts.maxDuration = none) (T : ℕ) :
    ∀ (fuel k : ℕ) (st : SteadyState), st.shouldStop = false →
    st.nextRequestIndex ≤ T → T - st.nextRequestIndex < fuel →
    (steadyLoop P opts tmo backend (some T) iter fuel k st).2 = true ∧
    (steadyLoop P opts tmo backend (some T) iter fuel k st).1.nextRequestIndex = T ∧
    (steadyLoop P opts tmo backend (some T) iter fuel k st).1.stopReason = st.stopReason := by
  intro fuel
  induction fuel with
  | zero => intro k st _ _ hf; omega
  | succ n ih =>
    intro k st hs hle hf
    rw [steadyLoop]
    simp only [hs, Bool.false_eq_true, if_false]
    rw [steadyStep]
    simp only [maxDurationHit, hmd, Bool.false_eq_true, if_false, countHit]
    by_cases hT : T ≤ st.nextRequestIndex
    · have : st.nextRequestIndex = T := le_antisymm hle hT
      simp [hT, this]
    · have hd : (decide (T ≤ st.nextRequestIndex)) = false := by simpa using hT
      simp only [hd, Bool.false_eq_true, if_false]
      have hfields := steadyDispatch_fields P opts tmo backend (iter k) st
      have hstop : (steadyDispatch P opts tmo backend (iter k) st).shouldStop = false := by
        rw [steadyDispatch]
        exact foldl_completeRequest_no_stop opts tmo backend hmc _ _ hs
      have hreason : (steadyDispatch P opts tmo backend (iter k) st).stopReason =
          st.stopReason := by
        rw [steadyDispatch]
        exact foldl_completeRequest_stopReason_none opts tmo backend hmc _ _
      have := ih (k + 1) (steadyDispatch P opts tmo backend (iter k) st) hstop
        (by omega) (by omega)
      exact ⟨this.1, this.2.1.trans rfl, this.2.2.trans hreason⟩

theorem recordRemaining_fields (opts : SteadyModeOptions) (tmo : ℚ)
    (backend : ℕ → SigningBehavior) (pend : List (ℕ × ℚ)) :
    ∀ st : SteadyState,
    (recordRemaining opts tmo backend pend st).payloadIndex = st.payloadIndex ∧
    (recordRemaining opts tmo backend pend st).nextRequestIndex = st.nextRequestIndex ∧
    (recordRemaining opts tmo backend pend st).dispatches = st.dispatches := by
  simp only [recordRemaining]
  induction pend with
  | nil => intro st; exact ⟨rfl, rfl, rfl⟩
  | cons p rest ih =>
    intro st
    rw [List.foldl_cons]
    by_cases h : st.results.any (fun q => q.index ==
        ({ executeSigningRequest tmo (backend p.1) p.2 with index := p.1 } : RequestResult).index)
    · simp only [h, if_true]
      exact ih st
    · have h' : (st.results.any (fun q => q.index ==
          ({ executeSigningRequest tmo (backend p.1) p.2 with index := p.1 } :
            RequestResult).index)) = false := by simpa using h
      simp only [h', Bool.false_eq_true, if_false]
      have hp := processResult_fields opts
        { executeSigningRequest tmo (backend p.1) p.2 with index := p.1 } st
      have hr := ih ((processResult opts
        { executeSigningRequest tmo (backend p.1) p.2 with index := p.1 } st).1)
      exact ⟨hr.1.trans hp.1, hr.2.1.trans hp.2.1, hr.2.2.trans hp.2.2.1⟩

/-- Lockstep of the payload cursor with the request counter, plus the shape
of the dispatch log: the k-th dispatch reads payload slot k mod P. -/
def DispatchLog (P : ℕ) (st : SteadyState) : Prop :=
  st.payloadIndex = st.nextRequestIndex ∧
  st.dispatches = (List.range st.nextRequestIndex).map (fun k => (k, k % P))

theorem steadyDispatch_dispatchLog (P : ℕ) (opts : SteadyModeOptions) (tmo : ℚ)
    (backend : ℕ → SigningBehavior) (ev : IterEvents) (st : SteadyState)
    (h : DispatchLog P st) : DispatchLog P (steadyDispatch P opts tmo backend ev st) := by
  obtain ⟨h1, h2⟩ := h
  have hf := steadyDispatch_fields P opts tmo backend ev st
  constructor
  · rw [hf.1, hf.2.1, h1]
  · rw [hf.2.2, hf.2.1, h2, h1, List.range_succ, List.map_append, List.map_cons,
      List.map_nil]

theorem steadyLoop_dispatchLog (P : ℕ) (opts : SteadyModeOptions) (tmo : ℚ)
    (backend : ℕ → SigningBehavior) (total : Option ℕ) (iter : ℕ → IterEvents) :
    ∀ (fuel k : ℕ) (st : SteadyState), DispatchLog P st →
    DispatchLog P (steadyLoop P opts tmo backend total iter fuel k st).1 := by
  intro fuel
  induction fuel with
  | zero => intro k st h; exact h
  | succ n ih =>
    intro k st h
    rw [steadyLoop]
    by_cases hs : st.shouldStop = true
    · simp only [hs, if_true]
      exact h
    · have hs' : st.shouldStop = false := by simpa using hs
      simp only [hs', Bool.false_eq_true, if_false]
      rw [steadyStep]
      by_cases hmd : maxDurationHit opts (iter k).now = true
      · simp only [hmd, if_true]
        exact ⟨h.1, h.2⟩
      · have hmd' : maxDurationHit opts (iter k).now = false := by simpa using hmd
        simp only [hmd', Bool.false_eq_true, if_false]
        by_cases hT : countHit total st.nextRequestIndex = true
        · simp only [hT, if_true]
          exact h
        · have hT' : countHit total st.nextRequestIndex = false := by simpa using hT
          simp only [hT', Bool.false_eq_true, if_false]
          exact ih (k + 1) _ (steadyDispatch_dispatchLog P opts tmo backend (iter k) st h)

/-- The dispatch log of a finished steady run: request k reads payload
slot k mod P, for every k below the number of dispatched requests. -/
theorem runSteadyMode_dispatchLog (P : ℕ) (opts : SteadyModeOptions) (tmo : ℚ)
    (backend : ℕ → SigningBehavior) (sched : Schedule) (fuel : ℕ) :
    DispatchLog P (runSteadyMode P opts tmo backend sched fuel).final := by
  rw [runSteadyMode]
  have hloop := steadyLoop_dispatchLog P opts tmo backend (totalRequests opts) sched.iter fuel 0
    initialSteadyState ⟨rfl, rfl⟩
  set st := (steadyLoop P opts tmo backend (totalRequests opts) sched.iter fuel 0
    initialSteadyState).1 with hst
  simp only []
  by_cases hd : (decide (st.pending ≠ []) && decide (st.stopReason = .completed)) = true
  · simp only [hd, if_true]
    have h1 := foldl_completeRequest_fields opts tmo backend sched.drainOrder st
    set st1 := sched.drainOrder.foldl (fun s i => completeRequest opts tmo backend i s) st
      with hst1
    have h2 := foldl_completeRequest_fields opts tmo backend (st1.pending.map (·.1)) st1
    set st2 := (st1.pending.map (·.1)).foldl (fun s i => completeRequest opts tmo backend i s)
      st1 with hst2
    have h3 := recordRemaining_fields opts tmo backend st.pending st2
    rw [drainPending, ← hst1, ← hst2]
    refine ⟨?_, ?_⟩
    · rw [h3.1, h2.1, h1.1, h3.2.1, h2.2.1, h1.2.1]
      exact hloop.1
    · rw [h3.2.2, h2.2.2, h1.2.2, h3.2.1, h2.2.1, h1.2.1]
      exact hloop.2
  · have hd' : (decide (st.pending ≠ []) && decide (st.stopReason = .completed)) = false := by
      simpa using hd
    simp only [hd', Bool.false_eq_true, if_false]
    have h1 := foldl_completeRequest_fields opts tmo backend sched.lateArrivals st
    refine ⟨?_, ?_⟩
    · rw [h1.1, h1.2.1]
      exact hloop.1
    · rw [h1.2.2, h1.2.1]
      exact hloop.2

theorem runSteadyMode_terminated (P : ℕ) (opts : SteadyModeOptions) (tmo : ℚ)
    (backend : ℕ → SigningBehavior) (sched : Schedule) (fuel : ℕ) :
    (runSteadyMode P opts tmo backend sched fuel).terminated =
      (steadyLoop P opts tmo backend (totalRequests opts) sched.iter fuel 0
        initialSteadyState).2 := rfl

theorem runSteadyMode_final_nextRequestIndex (P : ℕ) (opts : SteadyModeOptions) (tmo : ℚ)
    (backend : ℕ → SigningBehavior) (sched : Schedule) (fuel : ℕ) :
    (runSteadyMode P opts tmo backend sched fuel).final.nextRequestIndex =
      (steadyLoop P opts tmo backend (totalRequests opts) sched.iter fuel 0
        initialSteadyState).1.nextRequestIndex := by
  rw [runSteadyMode]
  set st := (steadyLoop P opts tmo backend (totalRequests opts) sched.iter fuel 0
    initialSteadyState).1 with hst
  simp only []
  by_cases hd : (decide (st.pending ≠ []) && decide (st.stopReason = .completed)) = true
  · simp only [hd, if_true]
    have h1 := foldl_completeRequest_fields opts tmo backend sched.drainOrder st
    set st1 := sched.drainOrder.foldl (fun s i => completeRequest opts tmo backend i s) st
      with hst1
    have h2 := foldl_completeRequest_fields opts tmo backend (st1.pending.map (·.1)) st1
    set st2 := (st1.pending.map (·.1)).foldl (fun s i => completeRequest opts tmo backend i s)
      st1 with hst2
    have h3 := recordRemaining_fields opts tmo backend st.pending st2
    rw [drainPending, ← hst1, ← hst2]
    rw [h3.2.1, h2.2.1, h1.2.1]
  · have hd' : (decide (st.pending ≠ []) && decide (st.stopReason = .completed)) = false := by
      simpa using hd
    simp only [hd', Bool.false_eq_true, if_false]
    exact (foldl_completeRequest_fields opts tmo backend sched.lateArrivals st).2.1

/-- When the loop exits with a stop-condition reason, nothing is drained
before return, so the returned stopReason is the loop's. -/
theorem runSteadyMode_stopReason_of_stop (P : ℕ) (opts : SteadyModeOptions) (tmo : ℚ)
    (backend : ℕ → SigningBehavior) (sched : Schedule) (fuel : ℕ)
    (h : ¬(steadyLoop P opts tmo backend (totalRequests opts) sched.iter fuel 0
        initialSteadyState).1.stopReason = .completed) :
    (runSteadyMode P opts tmo backend sched fuel).result.stopReason =
      (steadyLoop P opts tmo backend (totalRequests opts) sched.iter fuel 0
        initialSteadyState).1.stopReason := by
  rw [runSteadyMode]
  set st := (steadyLoop P opts tmo backend (totalRequests opts) sched.iter fuel 0
    initialSteadyState).1 with hst
  have hd : (decide (st.pending ≠ []) && decide (st.stopReason = .completed)) = false := by
    simp [h]
  simp only [hd, Bool.false_eq_true, if_false]

/-- C3 (amended): exactly one sizing rule is used.  If a stop condition is
supplied the count bound is none and a terminated run ends only with a
stop-condition reason; otherwise the dispatched count is the explicit
requestCount when supplied, else floor(duration × rate) where the source
substitutes 60 for an absent or zero duration (the || default of line
595). -/
theorem runSteadyMode_sizing_rule (opts : SteadyModeOptions) :
    (hasStopConditions opts = true →
      totalRequests opts = none ∧
      ∀ (P : ℕ) (tmo : ℚ) (backend : ℕ → SigningBehavior) (sched : Schedule) (fuel : ℕ),
        (runSteadyMode P opts tmo backend sched fuel).terminated = true →
        ((runSteadyMode P opts tmo backend sched fuel).result.stopReason = .duration ∨
         (runSteadyMode P opts tmo backend sched fuel).result.stopReason =
           .consecutiveFailures)) ∧
    (hasStopConditions opts = false →
      totalRequests opts = some (opts.requestCount.getD
        (jsFloor (durationOrDefault opts.duration * opts.rate)).toNat) ∧
      ∀ (P : ℕ) (tmo : ℚ) (backend : ℕ → SigningBehavior) (sched : Schedule) (f : ℕ),
        (runSteadyMode P opts tmo backend sched
          (opts.requestCount.getD
            (jsFloor (durationOrDefault opts.duration * opts.rate)).toNat + 1 + f)).terminated
          = true ∧
        (runSteadyMode P opts tmo backend sched
          (opts.requestCount.getD
            (jsFloor (durationOrDefault opts.duration * opts.rate)).toNat + 1 + f)).final.dispatches.length
          = opts.requestCount.getD
            (jsFloor (durationOrDefault opts.duration * opts.rate)).toNat) := by
  constructor
  · intro h
    have htot : totalRequests opts = none := by simp [totalRequests, h]
    refine ⟨htot, ?_⟩
    intro P tmo backend sched fuel hterm
    rw [runSteadyMode_terminated, htot] at hterm
    have hexit := steadyLoop_exit_reason P opts tmo backend sched.iter fuel 0
      initialSteadyState (by intro hc; exact absurd hc (by simp [initialSteadyState]))
      hterm
    have hne : ¬(steadyLoop P opts tmo backend (totalRequests opts) sched.iter fuel 0
        initialSteadyState).1.stopReason = .completed := by
      rw [htot]
      rcases hexit with h1 | h1 <;> simp [h1]
    rw [runSteadyMode_stopReason_of_stop P opts tmo backend sched fuel hne, htot]
    exact hexit
  · intro h
    have hmd : opts.maxDuration = none := by
      rcases hv : opts.maxDuration with _ | v
      · rfl
      · rw [hasStopConditions, hv] at h
        simp at h
    have hmc : opts.maxConsecutiveFailures = none := by
      rcases hv : opts.maxConsecutiveFailures with _ | v
      · rfl
      · rw [hasStopConditions, hv] at h
        simp at h
    have htot : totalRequests opts = some (opts.requestCount.getD
        (jsFloor (durationOrDefault opts.duration * opts.rate)).toNat) := by
      simp [totalRequests, h]
    set T := opts.requestCount.getD
      (jsFloor (durationOrDefault opts.duration * opts.rate)).toNat with hT
    refine ⟨htot, ?_⟩
    intro P tmo backend sched f
    have hloop := steadyLoop_count_exact P opts tmo backend sched.iter hmc hmd T
      (T + 1 + f) 0 initialSteadyState rfl (Nat.zero_le T) (by omega)
    constructor
    · rw [runSteadyMode_terminated, htot]
      exact hloop.1
    · have hdl := runSteadyMode_dispatchLog P opts tmo backend sched (T + 1 + f)
      rw [hdl.2, List.length_map, List.length_range,
        runSteadyMode_final_nextRequestIndex, htot]
      exact hloop.2.1

/-- A backend that succeeds instantly. -/
def okBackend : ℕ → SigningBehavior := fun _ => { latency := 0, outcome := .ok 0 }

/-- A schedule on which the clock stays at the origin and no completion is
delivered during any sleep. -/
def quietSched : Schedule :=
  { iter := fun _ => { now := 0, completions := [] }, drainOrder := [], lateArrivals := [] }

/-- Counterexample to C3 as stated: with duration = 0 supplied (and rate
1/60, no explicit count, no stop conditions) the claim predicts
floor(duration × rate) = 0 dispatched requests, but the source substitutes
60 for the falsy duration and dispatches floor(60 × 1/60) = 1 request. -/
theorem runSteadyMode_sizing_counterexample :
    (hasStopConditions { rate := (1 : ℚ)/60, duration := some 0 } = false) ∧
    (runSteadyMode 1 { rate := (1 : ℚ)/60, duration := some 0 } 120 okBackend
      quietSched 2).terminated = true ∧
    (runSteadyMode 1 { rate := (1 : ℚ)/60, duration := some 0 } 120 okBackend
      quietSched 2).final.dispatches.length = 1 ∧
    (jsFloor ((0 : ℚ) * ((1 : ℚ)/60))).toNat = 0 := by
  have htot : totalRequests { rate := (1 : ℚ)/60, duration := some 0 } = some 1 := by
    rw [totalRequests]
    simp only [hasStopConditions]
    norm_num [durationOrDefault, jsFloor_eq]
  refine ⟨rfl, ?_, ?_, ?_⟩
  · rw [runSteadyMode_terminated, htot]
    simp only [steadyLoop, steadyStep, maxDurationHit, countHit, steadyDispatch,
      initialSteadyState, quietSched]
    norm_num
  · have hdl := runSteadyMode_dispatchLog 1 { rate := (1 : ℚ)/60, duration := some 0 } 120
      okBackend quietSched 2
    rw [hdl.2, List.length_map, List.length_range, runSteadyMode_final_nextRequestIndex,
      htot]
    simp only [steadyLoop, steadyStep, maxDurationHit, countHit, steadyDispatch,
      initialSteadyState, quietSched]
    norm_num
  · rw [show ((0 : ℚ) * ((1 : ℚ)/60)) = 0 by ring]
    rw [show jsFloor 0 = 0 by rw [jsFloor_eq]; norm_num]
    rfl

/-- Witness for the amended C3: an immediate-duration stop run discharges
the stop-condition branch, and a duration-2 rate-1 run discharges the
count branch. -/
theorem runSteadyMode_sizing_rule_witness :
    (hasStopConditions { rate := 1, maxDuration := some 0 } = true) ∧
    (runSteadyMode 1 { rate := 1, maxDuration := some 0 } 120 okBackend
      quietSched 1).terminated = true ∧
    ((runSteadyMode 1 { rate := 1, maxDuration := some 0 } 120 okBackend
        quietSched 1).result.stopReason = .duration ∨
     (runSteadyMode 1 { rate := 1, maxDuration := some 0 } 120 okBackend
        quietSched 1).result.stopReason = .consecutiveFailures) ∧
    (hasStopConditions { rate := 1, duration := some 2 } = false) ∧
    ((runSteadyMode 1 { rate := 1, duration := some 2 } 120 okBackend quietSched
        (({ rate := 1, duration := some 2 } : SteadyModeOptions).requestCount.getD
          (jsFloor (durationOrDefault ({ rate := 1, duration := some 2 } :
            SteadyModeOptions).duration * 1)).toNat + 1 + 0)).terminated = true ∧
     (runSteadyMode 1 { rate := 1, duration := some 2 } 120 okBackend quietSched
        (({ rate := 1, duration := some 2 } : SteadyModeOptions).requestCount.getD
          (jsFloor (durationOrDefault ({ rate := 1, duration := some 2 } :
            SteadyModeOptions).duration * 1)).toNat + 1 + 0)).final.dispatches.length
        = ({ rate := 1, duration := some 2 } : SteadyModeOptions).requestCount.getD
          (jsFloor (durationOrDefault ({ rate := 1, duration := some 2 } :
            SteadyModeOptions).duration * 1)).toNat) := by
  have hterm : (runSteadyMode 1 { rate := 1, maxDuration := some 0 } 120 okBackend
      quietSched 1).terminated = true := by
    rw [runSteadyMode_terminated]
    simp only [steadyLoop, steadyStep, maxDurationHit, countHit, initialSteadyState,
      quietSched]
    norm_num
  refine ⟨rfl, hterm, ?_, rfl, ?_⟩
  · exact ((runSteadyMode_sizing_rule { rate := 1, maxDuration := some 0 }).1 rfl).2
      1 120 okBackend quietSched 1 hterm
  · exact ((runSteadyMode_sizing_rule { rate := 1, duration := some 2 }).2 rfl).2
      1 120 okBackend quietSched 0

/-! ### Index uniqueness (C7) -/

/-- Invariant of the steady loop: pending indices and recorded indices are
duplicate-free and disjoint, all indices are below the dispatch counter,
and the timeline carries exactly the recorded indices in order. -/
def IndexInv (st : SteadyState) : Prop :=
  (st.pending.map Prod.fst).Nodup ∧
  (st.results.map RequestResult.index).Nodup ∧
  (∀ i ∈ st.pending.map Prod.fst, i ∉ st.results.map RequestResult.index) ∧
  (∀ i ∈ st.pending.map Prod.fst, i < st.nextRequestIndex) ∧
  (∀ i ∈ st.results.map RequestResult.index, i < st.nextRequestIndex) ∧
  st.timeline.map TimelineRequest.index = st.results.map RequestResult.index

/-- The weaker invariant that survives the guarded re-recording loop. -/
def RecordedInv (st : SteadyState) : Prop :=
  (st.results.map RequestResult.index).Nodup ∧
  st.timeline.map TimelineRequest.index = st.results.map RequestResult.index

theorem IndexInv.recorded {st : SteadyState} (h : IndexInv st) : RecordedInv st :=
  ⟨h.2.1, h.2.2.2.2.2⟩

theorem processResult_results_map (opts : SteadyModeOptions) (r : RequestResult)
    (st : SteadyState) :
    (processResult opts r st).1.results.map RequestResult.index =
      st.results.map RequestResult.index ++ [r.index] := by
  rw [(processResult_fields opts r st).2.2.2.2.1, List.map_append, List.map_cons,
    List.map_nil]

theorem processResult_RecordedInv (opts : SteadyModeOptions) (r : RequestResult)
    (st : SteadyState) (hinv : RecordedInv st)
    (hr : r.index ∉ st.results.map RequestResult.index) :
    RecordedInv (processResult opts r st).1 := by
  constructor
  · rw [processResult_results_map]
    simpa [List.nodup_append] using
      ⟨hinv.1, fun x hx hc => hr (List.mem_map.mpr ⟨x, hx, hc⟩)⟩
  · rw [processResult_results_map, (processResult_fields opts r st).2.2.2.2.2, hinv.2]

theorem processResult_IndexInv (opts : SteadyModeOptions) (r : RequestResult)
    (st : SteadyState) (hinv : IndexInv st)
    (hr : r.index ∉ st.results.map RequestResult.index)
    (hrp : ∀ i ∈ st.pending.map Prod.fst, i ≠ r.index)
    (hrb : r.index < st.nextRequestIndex) :
    IndexInv (processResult opts r st).1 := by
  have hf := processResult_fields opts r st
  refine ⟨?_, ?_, ?_, ?_, ?_, ?_⟩
  · rw [hf.2.2.2.1]; exact hinv.1
  · rw [processResult_results_map]
    simpa [List.nodup_append] using
      ⟨hinv.2.1, fun x hx hc => hr (List.mem_map.mpr ⟨x, hx, hc⟩)⟩
  · intro i hi
    rw [hf.2.2.2.1] at hi
    rw [processResult_results_map]
    simp only [List.mem_append, List.mem_cons, List.not_mem_nil, or_false, not_or]
    exact ⟨hinv.2.2.1 i hi, hrp i hi⟩
  · intro i hi
    rw [hf.2.2.2.1] at hi
    rw [hf.2.1]
    exact hinv.2.2.2.1 i hi
  · intro i hi
    rw [processResult_results_map] at hi
    rw [hf.2.1]
    rcases List.mem_append.mp hi with h1 | h1
    · exact hinv.2.2.2.2.1 i h1
    · simp only [List.mem_cons, List.not_mem_nil, or_false] at h1
      exact h1 ▸ hrb
  · rw [processResult_results_map, hf.2.2.2.2.2, hinv.2.2.2.2.2]

theorem mem_filtered_pending {pending : List (ℕ × ℚ)} {idx i : ℕ}
    (hi : i ∈ (pending.filter (fun p => p.1 != idx)).map Prod.fst) :
    i ∈ pending.map Prod.fst ∧ i ≠ idx := by
  obtain ⟨p, hp, hpi⟩ := List.mem_map.mp hi
  have := List.mem_filter.mp hp
  refine ⟨List.mem_map.mpr ⟨p, this.1, hpi⟩, ?_⟩
  have hne := this.2
  simp only [bne_iff_ne, ne_eq] at hne
  exact hpi ▸ hne

theorem completeRequest_IndexInv (opts : SteadyModeOptions) (tmo : ℚ)
    (backend : ℕ → SigningBehavior) (idx : ℕ) (st : SteadyState)
    (hinv : IndexInv st) : IndexInv (completeRequest opts tmo backend idx st) := by
  rw [completeRequest]
  cases hl : st.pending.lookup idx with
  | none => exact hinv
  | some t0 =>
    have hmem : idx ∈ st.pending.map Prod.fst := lookup_some_mem hl
    set st1 : SteadyState := { st with pending := st.pending.filter (fun p => p.1 != idx) }
      with hst1
    have hinv1 : IndexInv st1 := by
      refine ⟨?_, hinv.2.1, ?_, ?_, hinv.2.2.2.2.1, hinv.2.2.2.2.2⟩
      · exact (List.Sublist.map Prod.fst (List.filter_sublist st.pending)).nodup hinv.1
      · intro i hi
        exact hinv.2.2.1 i (mem_filtered_pending hi).1
      · intro i hi
        exact hinv.2.2.2.1 i (mem_filtered_pending hi).1
    have hres := processResult_IndexInv opts
      { executeSigningRequest tmo (backend idx) t0 with index := idx } st1 hinv1
      (hinv.2.2.1 idx hmem)
      (fun i hi => (mem_filtered_pending hi).2)
      (hinv.2.2.2.1 idx hmem)
    obtain ⟨a1, a2, a3, a4, a5, a6⟩ := hres
    have hf := processResult_fields opts
      { executeSigningRequest tmo (backend idx) t0 with index := idx } st1
    exact ⟨a1, a2, a3, a4, a5, a6⟩

theorem foldl_completeRequest_IndexInv (opts : SteadyModeOptions) (tmo : ℚ)
    (backend : ℕ → SigningBehavior) (l : List ℕ) :
    ∀ st : SteadyState, IndexInv st →
    IndexInv (l.foldl (fun s i => completeRequest opts tmo backend i s) st) := by
  induction l with
  | nil => intro st h; exact h
  | cons i rest ih =>
    intro st h
    rw [List.foldl_cons]
    exact ih _ (completeRequest_IndexInv opts tmo backend i st h)

theorem steadyDispatch_IndexInv (P : ℕ) (opts : SteadyModeOptions) (tmo : ℚ)
    (backend : ℕ → SigningBehavior) (ev : IterEvents) (st : SteadyState)
    (hinv : IndexInv st) : IndexInv (steadyDispatch P opts tmo backend ev st) := by
  rw [steadyDispatch]
  apply foldl_completeRequest_IndexInv
  refine ⟨?_, hinv.2.1, ?_, ?_, ?_, hinv.2.2.2.2.2⟩
  · simp only [List.map_append, List.map_cons, List.map_nil]
    rw [List.nodup_append]
    refine ⟨hinv.1, List.nodup_singleton _, ?_⟩
    intro i hi
    simp only [List.mem_singleton]
    exact Nat.ne_of_lt (hinv.2.2.2.1 i hi)
  · intro i hi
    simp only [List.map_append, List.map_cons, List.map_nil, List.mem_append,
      List.mem_singleton] at hi
    rcases hi with h1 | h1
    · exact hinv.2.2.1 i h1
    · subst h1
      intro hc
      exact absurd (hinv.2.2.2.2.1 _ hc) (by omega)
  · intro i hi
    simp only [List.map_append, List.map_cons, List.map_nil, List.mem_append,
      List.mem_singleton] at hi
    rcases hi with h1 | h1
    · exact Nat.lt_succ_of_lt (hinv.2.2.2.1 i h1)
    · exact h1 ▸ Nat.lt_succ_self _
  · intro i hi
    exact Nat.lt_succ_of_lt (hinv.2.2.2.2.1 i hi)

theorem steadyLoop_IndexInv (P : ℕ) (opts : SteadyModeOptions) (tmo : ℚ)
    (backend : ℕ → SigningBehavior) (total : Option ℕ) (iter : ℕ → IterEvents) :
    ∀ (fuel k : ℕ) (st : SteadyState), IndexInv st →
    IndexInv (steadyLoop P opts tmo backend total iter fuel k st).1 := by
  intro fuel
  induction fuel with
  | zero => intro k st h; exact h
  | succ n ih =>
    intro k st h
    rw [steadyLoop]
    by_cases hs : st.shouldStop = true
    · simp only [hs, if_true]; exact h
    · have hs' : st.shouldStop = false := by simpa using hs
      simp only [hs', Bool.false_eq_true, if_false]
      rw [steadyStep]
      by_cases hmd : maxDurationHit opts (iter k).now = true
      · simp only [hmd, if_true]
        exact ⟨h.1, h.2.1, h.2.2.1, h.2.2.2.1, h.2.2.2.2.1, h.2.2.2.2.2⟩
      · have hmd' : maxDurationHit opts (iter k).now = false := by simpa using hmd
        simp only [hmd', Bool.false_eq_true, if_false]
        by_cases hT : countHit total st.nextRequestIndex = true
        · simp only [hT, if_true]; exact h
        · have hT' : countHit total st.nextRequestIndex = false := by simpa using hT
          simp only [hT', Bool.false_eq_true, if_false]
          exact ih (k + 1) _ (steadyDispatch_IndexInv P opts tmo backend (iter k) st h)

theorem recordRemaining_RecordedInv (opts : SteadyModeOptions) (tmo : ℚ)
    (backend : ℕ → SigningBehavior) (pend : List (ℕ × ℚ)) :
    ∀ st : SteadyState, RecordedInv st →
    RecordedInv (recordRemaining opts tmo backend pend st) := by
  simp only [recordRemaining]
  induction pend with
  | nil => intro st h; exact h
  | cons p rest ih =>
    intro st h
    rw [List.foldl_cons]
    by_cases hg : st.results.any (fun q => q.index ==
        ({ executeSigningRequest tmo (backend p.1) p.2 with index := p.1 } :
          RequestResult).index) = true
    · simp only [hg, if_true]
      exact ih st h
    · have hg' : (st.results.any (fun q => q.index ==
          ({ executeSigningRequest tmo (backend p.1) p.2 with index := p.1 } :
            RequestResult).index)) = false := by simpa using hg
      simp only [hg', Bool.false_eq_true, if_false]
      refine ih _ (processResult_RecordedInv opts _ st h ?_)
      intro hc
      obtain ⟨r, hr, hri⟩ := List.mem_map.mp hc
      have := List.any_eq_false.mp hg' r hr
      simp only [beq_iff_eq] at this
      exact this hri

/-- C7: within one steady run every recorded index is unique — in the
outcome list and in the timeline — for every schedule, including schedules
on which a stop condition abandons in-flight requests whose results then
arrive late (the lateArrivals deliveries), and runs that drain and then
re-check the awaited results through the only-if-absent guard. -/
theorem steady_indices_unique (P : ℕ) (opts : SteadyModeOptions) (tmo : ℚ)
    (backend : ℕ → SigningBehavior) (sched : Schedule) (fuel : ℕ) :
    ((runSteadyMode P opts tmo backend sched fuel).result.results.map
      RequestResult.index).Nodup ∧
    ((runSteadyMode P opts tmo backend sched fuel).result.timeline.map
      TimelineRequest.index).Nodup := by
  have hinit : IndexInv initialSteadyState := by
    refine ⟨?_, ?_, ?_, ?_, ?_, ?_⟩ <;> simp [initialSteadyState]
  have hloop := steadyLoop_IndexInv P opts tmo backend (totalRequests opts) sched.iter fuel 0
    initialSteadyState hinit
  rw [runSteadyMode]
  set st := (steadyLoop P opts tmo backend (totalRequests opts) sched.iter fuel 0
    initialSteadyState).1 with hst
  simp only []
  by_cases hd : (decide (st.pending ≠ []) && decide (st.stopReason = .completed)) = true
  · simp only [hd, if_true]
    have h1 : IndexInv (drainPending opts tmo backend sched st) := by
      rw [drainPending]
      exact foldl_completeRequest_IndexInv opts tmo backend _ _
        (foldl_completeRequest_IndexInv opts tmo backend _ _ hloop)
    have h2 := recordRemaining_RecordedInv opts tmo backend st.pending _ h1.recorded
    exact ⟨h2.1, by rw [h2.2]; exact h2.1⟩
  · have hd' : (decide (st.pending ≠ []) && decide (st.stopReason = .completed)) = false := by
      simpa using hd
    simp only [hd', Bool.false_eq_true, if_false]
    have h1 : IndexInv (sched.lateArrivals.foldl
        (fun s i => completeRequest opts tmo backend i s) st) :=
      foldl_completeRequest_IndexInv opts tmo backend _ _ hloop
    exact ⟨h1.2.1, by rw [h1.2.2.2.2.2]; exact h1.2.1⟩

/-! ## Burst Controller (runBurstMode, src/runner.ts lines 712-760) -/

/-- Result of a burst run: the flat outcome list, the dispatch log
(request index paired with the payload slot it read), and the clock when
the last batch finished. -/
structure BurstRun where
  results : List RequestResult
  dispatches : List (ℕ × ℕ)
  endClock : ℚ
  deriving Repr

/-- One batch of cbs concurrent requests, dispatched at the same instant
(the inner for loop runs synchronously before the await), each stamped
with its dispatch-time index. -/
def burstBatch (tmo : ℚ) (backend : ℕ → SigningBehavior) (reqIdx cbs : ℕ) (now : ℚ) :
    List RequestResult :=
  (List.range cbs).map (fun i =>
    { executeSigningRequest tmo (backend (reqIdx + i)) now with index := reqIdx + i })

/-- The batch loop of runBurstMode: each iteration dispatches
min(burstSize, total − requestIndex) requests, awaits the entire batch
(the clock advances to the latest completion, and never backwards), and
only then proceeds. -/
def runBurstModeGo (P : ℕ) (tmo : ℚ) (backend : ℕ → SigningBehavior)
    (burstSize total : ℕ) : ℕ → ℕ → ℕ → ℚ → BurstRun → BurstRun
  | 0, _, _, now, acc => { acc with endClock := now }
  | left + 1, payloadIdx, reqIdx, now, acc =>
    let cbs := min burstSize (total - reqIdx)
    let batchResults := burstBatch tmo backend reqIdx cbs now
    let newNow := batchResults.foldl (fun m r => max m r.endTime) now
    runBurstModeGo P tmo backend burstSize total left (payloadIdx + cbs) (reqIdx + cbs)
      newNow
      { results := acc.results ++ batchResults,
        dispatches := acc.dispatches ++
          (List.range cbs).map (fun i => (reqIdx + i, (payloadIdx + i) % P)),
        endClock := newNow }

/-- runBurstMode (lines 712-760): totalRequests = totalBatches × burstSize,
batches strictly sequential, payload and request counters in lockstep from
zero. -/
def runBurstMode (P : ℕ) (tmo : ℚ) (backend : ℕ → SigningBehavior)
    (burstSize totalBatches : ℕ) : BurstRun :=
  runBurstModeGo P tmo backend burstSize (totalBatches * burstSize) totalBatches 0 0 0
    { results := [], dispatches := [], endClock := 0 }

/-- The ordering guarantee of the Burst Controller: a request of a later
batch (batch number = index / B) starts no earlier than every completion
of any earlier batch. -/
def BatchOrdered (B : ℕ) (l : List RequestResult) : Prop :=
  ∀ r1 ∈ l, ∀ r2 ∈ l, r1.index / B < r2.index / B → r1.endTime ≤ r2.startTime

theorem burstBatch_start (tmo : ℚ) (backend : ℕ → SigningBehavior) (reqIdx cbs : ℕ)
    (now : ℚ) : ∀ r ∈ burstBatch tmo backend reqIdx cbs now, r.startTime = now := by
  intro r hr
  obtain ⟨i, _, hi⟩ := List.mem_map.mp hr
  rw [← hi]
  by_cases hlt : (backend (reqIdx + i)).latency < tmo * 1000
  · cases houtcome : (backend (reqIdx + i)).outcome with
    | ok v => simp [executeSigningRequest, executeSigningRequestInner, hlt, houtcome]
    | error e => simp [executeSigningRequest, executeSigningRequestInner, hlt, houtcome]
  · simp [executeSigningRequest, hlt]

theorem burstBatch_index (tmo : ℚ) (backend : ℕ → SigningBehavior) (reqIdx cbs : ℕ)
    (now : ℚ) :
    (burstBatch tmo backend reqIdx cbs now).map RequestResult.index =
      (List.range cbs).map (fun i => reqIdx + i) := by
  rw [burstBatch, List.map_map]
  rfl

theorem foldl_max_le (l : List RequestResult) :
    ∀ now : ℚ, now ≤ l.foldl (fun m r => max m r.endTime) now ∧
      ∀ r ∈ l, r.endTime ≤ l.foldl (fun m r => max m r.endTime) now := by
  induction l with
  | nil => intro now; exact ⟨le_refl _, by simp⟩
  | cons x xs ih =>
    intro now
    rw [List.foldl_cons]
    have h := ih (max now x.endTime)
    refine ⟨le_trans (le_max_left _ _) h.1, ?_⟩
    intro r hr
    rcases List.mem_cons.mp hr with rfl | hr'
    · exact le_trans (le_max_right _ _) h.1
    · exact h.2 r hr'

theorem runBurstModeGo_spec (P : ℕ) (tmo : ℚ) (backend : ℕ → SigningBehavior) (B T : ℕ) :
    ∀ (left payloadIdx reqIdx : ℕ) (now : ℚ) (acc : BurstRun),
    reqIdx + left * B = T →
    payloadIdx = reqIdx →
    B ∣ reqIdx →
    acc.results.map RequestResult.index = List.range reqIdx →
    acc.dispatches = (List.range reqIdx).map (fun k => (k, k % P)) →
    (∀ r ∈ acc.results, r.endTime ≤ now) →
    (∀ r ∈ acc.results, r.index < reqIdx) →
    BatchOrdered B acc.results →
    (runBurstModeGo P tmo backend B T left payloadIdx reqIdx now acc).results.map
        RequestResult.index = List.range T ∧
    (runBurstModeGo P tmo backend B T left payloadIdx reqIdx now acc).dispatches =
        (List.range T).map (fun k => (k, k % P)) ∧
    BatchOrdered B
      (runBurstModeGo P tmo backend B T left payloadIdx reqIdx now acc).results := by
  intro left
  induction left with
  | zero =>
    intro payloadIdx reqIdx now acc hT hpl _ hidx hdisp _ _ hord
    rw [runBurstModeGo]
    simp only [Nat.zero_mul, Nat.add_zero] at hT
    subst hT
    exact ⟨hidx, hdisp, hord⟩
  | succ n ih =>
    intro payloadIdx reqIdx now acc hT hpl hdvd hidx hdisp hend hbound hord
    rw [runBurstModeGo]
    have hsplit : (n + 1) * B = n * B + B := by ring
    have hcbs : min B (T - reqIdx) = B := by omega
    simp only [hcbs]
    set batch := burstBatch tmo backend reqIdx B now with hbatch
    set newNow := batch.foldl (fun m r => max m r.endTime) now with hnew
    have hmax := foldl_max_le batch now
    have hbatchIdx : batch.map RequestResult.index =
        (List.range B).map (fun i => reqIdx + i) := burstBatch_index tmo backend reqIdx B now
    have hbatchStart : ∀ r ∈ batch, r.startTime = now :=
      burstBatch_start tmo backend reqIdx B now
    have hbatchMem : ∀ r ∈ batch, reqIdx ≤ r.index ∧ r.index < reqIdx + B := by
      intro r hr
      have hmemmap : r.index ∈ batch.map RequestResult.index := List.mem_map_of_mem _ hr
      rw [hbatchIdx] at hmemmap
      obtain ⟨i, hi, hri⟩ := List.mem_map.mp hmemmap
      rw [List.mem_range] at hi
      omega
    refine ih (payloadIdx + B) (reqIdx + B) newNow _ (by omega) (by omega)
      (by obtain ⟨c, hc⟩ := hdvd; exact ⟨c + 1, by rw [Nat.mul_add, Nat.mul_one, ← hc]⟩)
      ?_ ?_ ?_ ?_ ?_
    · simp only [List.map_append, hidx, hbatchIdx, List.range_add]
    · simp only [hdisp, hpl, List.range_add, List.map_append, List.map_map]
      congr 1
    · intro r hr
      rcases List.mem_append.mp hr with h1 | h1
      · exact le_trans (hend r h1) hmax.1
      · exact hmax.2 r h1
    · intro r hr
      rcases List.mem_append.mp hr with h1 | h1
      · exact Nat.lt_of_lt_of_le (hbound r h1) (Nat.le_add_right _ _)
      · exact (hbatchMem r h1).2
    · rcases Nat.eq_zero_or_pos B with hB | hB
      · intro r1 hr1 r2 hr2 hlt
        exfalso
        subst hB
        simp at hlt
      · obtain ⟨k, hk⟩ := hdvd
        have hdivBatch : ∀ r ∈ batch, r.index / B = k := by
          intro r hr
          obtain ⟨hm1, hm2⟩ := hbatchMem r hr
          have hsplit2 : r.index = B * k + (r.index - B * k) := by omega
          rw [hsplit2, Nat.mul_add_div hB, Nat.div_eq_of_lt (by omega), Nat.add_zero]
        have hdivOld : ∀ r ∈ acc.results, r.index / B < k := by
          intro r hr
          exact Nat.div_lt_of_lt_mul (by have := hbound r hr; omega)
        intro r1 hr1 r2 hr2 hlt
        rcases List.mem_append.mp hr1 with h1 | h1 <;>
          rcases List.mem_append.mp hr2 with h2 | h2
        · exact hord r1 h1 r2 h2 hlt
        · rw [hbatchStart r2 h2]
          exact hend r1 h1
        · exfalso
          have e1 := hdivBatch r1 h1
          have e2 := hdivOld r2 h2
          omega
        · exfalso
          have e1 := hdivBatch r1 h1
          have e2 := hdivBatch r2 h2
          omega

/-- C5: for every burst run of N batches of size B and any backend
behaviour, the outcome indices are exactly 0..N×B−1 in dispatch order (so
every batch is full: the derived total is N×B and the min never truncates),
and no request of a later batch starts before every request of an earlier
batch has completed (batch number = index / B). -/
theorem runBurstMode_spec (P : ℕ) (tmo : ℚ) (backend : ℕ → SigningBehavior) (B N : ℕ) :
    (runBurstMode P tmo backend B N).results.map RequestResult.index =
      List.range (N * B) ∧
    (runBurstMode P tmo backend B N).results.length = N * B ∧
    BatchOrdered B (runBurstMode P tmo backend B N).results := by
  have h := runBurstModeGo_spec P tmo backend B (N * B) N 0 0 0
    { results := [], dispatches := [], endClock := 0 } (by omega) rfl ⟨0, rfl⟩
    (by simp) (by simp) (by simp) (by simp)
    (by intro r hr; simp at hr)
  rw [runBurstMode]
  refine ⟨h.1, ?_, h.2.2⟩
  have := congrArg List.length h.1
  rwa [List.length_map, List.length_range] at this

/-- C10: in both controllers the k-th dispatched request reads payload
slot k mod P: the dispatch log of a steady run is exactly
[(0, 0 mod P), (1, 1 mod P), …], and likewise for the N×B dispatches of a
burst run. -/
theorem payloads_round_robin (P : ℕ) (hP : 1 < P) (opts : SteadyModeOptions) (tmo : ℚ)
    (backend : ℕ → SigningBehavior) (sched : Schedule) (fuel : ℕ) (B N : ℕ) :
    (runSteadyMode P opts tmo backend sched fuel).final.dispatches =
      (List.range
        (runSteadyMode P opts tmo backend sched fuel).final.nextRequestIndex).map
        (fun k => (k, k % P)) ∧
    (runBurstMode P tmo backend B N).dispatches =
      (List.range (N * B)).map (fun k => (k, k % P)) := by
  refine ⟨(runSteadyMode_dispatchLog P opts tmo backend sched fuel).2, ?_⟩
  exact (runBurstModeGo_spec P tmo backend B (N * B) N 0 0 0
    { results := [], dispatches := [], endClock := 0 } (by omega) rfl ⟨0, rfl⟩
    (by simp) (by simp) (by simp) (by simp)
    (by intro r hr; simp at hr)).2.1

/-- Witness for C10 at P = 2 payloads, a one-batch burst of size 2 and a
zero-fuel steady run. -/
theorem payloads_round_robin_witness :
    (1 < 2) ∧
    ((runSteadyMode 2 { rate := 1 } 120 okBackend quietSched 0).final.dispatches =
      (List.range
        (runSteadyMode 2 { rate := 1 } 120 okBackend quietSched 0).final.nextRequestIndex).map
        (fun k => (k, k % 2)) ∧
     (runBurstMode 2 120 okBackend 2 1).dispatches =
       (List.range (1 * 2)).map (fun k => (k, k % 2))) :=
  ⟨by norm_num,
    payloads_round_robin 2 (by norm_num) { rate := 1 } 120 okBackend quietSched 0 2 1⟩

/-! ## Sweep Orchestrator (main, src/runner.ts lines 1106-1135) -/

/-- JavaScript slice(-10): the last ten elements, or the whole list when it
is shorter. -/
def lastTen (l : List RequestResult) : List RequestResult :=
  l.drop (l.length - 10)

/-- The early-degradation marking applied after each steady run of a sweep
(lines 1118-1121): stoppedEarly is set only when the slice holds at least
10 outcomes and every one of them failed. -/
def markStoppedEarly (results : List RequestResult) (rr : RunResult) : RunResult :=
  if 10 ≤ (lastTen results).length ∧ (lastTen results).all (fun r => !r.success) = true then
    { rr with stoppedEarly := some true }
  else rr

/-- The steady phase of sweep mode (lines 1112-1124): one steady run per
configured rate, in list order, each aggregated and marked; the loop has no
break, so no level aborts the sweep. -/
def sweepSteadyPhase (P : ℕ) (tmo : ℚ) (backendFor : ℚ → ℕ → SigningBehavior)
    (schedFor : ℚ → Schedule) (fuel : ℕ) (duration : ℚ) (requests : Option ℕ)
    (rates : List ℚ) : List RunResult :=
  rates.map (fun testRate =>
    let steadyResult := runSteadyMode P
      { rate := testRate, duration := some duration, requestCount := requests }
      tmo (backendFor testRate) (schedFor testRate) fuel
    markStoppedEarly steadyResult.result.results
      (printResults steadyResult.result.results "steady" testRate))

/-- C4 (amended): after every steady run of a sweep, the RunSummary is
marked stoppedEarly = true exactly when the run produced at least 10
outcomes whose last 10 are all failures (a run with fewer than 10 outcomes
is never marked, its summary is returned unchanged); and the sweep
proceeds through every configured level, producing one summary per rate in
order. -/
theorem sweep_stoppedEarly_marking :
    (∀ (results : List RequestResult) (rr : RunResult),
      (10 ≤ results.length → (lastTen results).all (fun r => !r.success) = true →
        (markStoppedEarly results rr).stoppedEarly = some true) ∧
      (¬(10 ≤ results.length ∧ (lastTen results).all (fun r => !r.success) = true) →
        markStoppedEarly results rr = rr)) ∧
    (∀ (P : ℕ) (tmo : ℚ) (backendFor : ℚ → ℕ → SigningBehavior)
      (schedFor : ℚ → Schedule) (fuel : ℕ) (duration : ℚ) (requests : Option ℕ)
      (rates : List ℚ),
      (sweepSteadyPhase P tmo backendFor schedFor fuel duration requests rates).length =
        rates.length ∧
      ∀ (i : ℕ) (h : i < rates.length),
        (sweepSteadyPhase P tmo backendFor schedFor fuel duration requests
          rates).get ⟨i, by simpa [sweepSteadyPhase] using h⟩ =
        (let steadyResult := runSteadyMode P
            { rate := rates.get ⟨i, h⟩, duration := some duration, requestCount := requests }
            tmo (backendFor (rates.get ⟨i, h⟩)) (schedFor (rates.get ⟨i, h⟩)) fuel
         markStoppedEarly steadyResult.result.results
          (printResults steadyResult.result.results "steady" (rates.get ⟨i, h⟩)))) := by
  have hlen : ∀ results : List RequestResult,
      (lastTen results).length = results.length - (results.length - 10) := by
    intro results
    rw [lastTen, List.length_drop]
  constructor
  · intro results rr
    constructor
    · intro h10 hall
      rw [markStoppedEarly, if_pos]
      exact ⟨by rw [hlen]; omega, hall⟩
    · intro hneg
      rw [markStoppedEarly, if_neg]
      intro hc
      refine hneg ⟨?_, hc.2⟩
      have := hc.1
      rw [hlen] at this
      omega
  · intro P tmo backendFor schedFor fuel duration requests rates
    refine ⟨by rw [sweepSteadyPhase, List.length_map], ?_⟩
    intro i h
    simp only [sweepSteadyPhase, List.get_map]

/-- A failed outcome used by the sweep counterexample. -/
def failedOutcome : RequestResult :=
  { index := 0, startTime := 0, endTime := 1, duration := 1, success := false,
    error := some "boom" }

/-- Counterexample to C4 as stated: a steady run that produced a single
outcome, a failure — all of its outcomes are failures, so the claim says
the summary is marked stoppedEarly, but the source requires at least 10
outcomes and leaves the summary unmarked. -/
theorem sweep_stoppedEarly_counterexample :
    (lastTen [failedOutcome]).all (fun r => !r.success) = true ∧
    (lastTen [failedOutcome]).length = 1 ∧
    (markStoppedEarly [failedOutcome]
      (printResults [failedOutcome] "steady" 1)).stoppedEarly ≠ some true := by
  refine ⟨rfl, rfl, ?_⟩
  rw [markStoppedEarly, if_neg (by rw [lastTen]; norm_num)]
  rw [printResults]
  simp

/-- Witness for the amended C4: ten failures mark the summary, and a
one-rate sweep yields one summary. -/
theorem sweep_stoppedEarly_marking_witness :
    (10 ≤ (List.replicate 10 failedOutcome).length) ∧
    ((lastTen (List.replicate 10 failedOutcome)).all (fun r => !r.success) = true) ∧
    ((markStoppedEarly (List.replicate 10 failedOutcome)
        (printResults (List.replicate 10 failedOutcome) "steady" 1)).stoppedEarly =
      some true) ∧
    (sweepSteadyPhase 1 120 (fun _ => okBackend) (fun _ => quietSched) 0 1 none [1]).length
      = 1 :=
  ⟨by norm_num, by decide,
    (sweep_stoppedEarly_marking.1 (List.replicate 10 failedOutcome)
      (printResults (List.replicate 10 failedOutcome) "steady" 1)).1
      (by norm_num) (by decide),
    (sweep_stoppedEarly_marking.2 1 120 (fun _ => okBackend) (fun _ => quietSched)
      0 1 none [1]).1⟩

/-! ## Persisted run record (saveTestData / loadTestData, src/runner.ts
lines 907-916)

saveTestData writes JSON.stringify(data) and loadTestData reads it back
with JSON.parse; both are host-library functions and the text layer is
their identity-preserving concern, so the pair is modelled at the level of
the JSON value the repository code exchanges with them: saveTestData is
the JSON value stringify observes on the object graph (undefined-valued
optional fields dropped, null-valued fields kept), loadTestData is the
field-by-name reading the `as TestData` cast licenses downstream. -/

/-- The config sub-record of TestData, from src/types.ts lines 156-168. -/
structure TestDataConfig where
  mode : String
  rate : ℚ
  duration : ℚ
  rates : List ℚ
  burstSizes : List ℚ
  batchesPerBurst : ℚ
  domain : Option String := none
  cohortId : Option ℕ := none
  chainId : Option ℕ := none
  maxDuration : Option ℚ := none
  maxConsecutiveFailures : Option ℕ := none
  deriving DecidableEq, Repr

/-- TestData from src/types.ts lines 153-171. -/
structure TestData where
  version : ℕ
  timestamp : String
  config : TestDataConfig
  steadyResults : List RunResult
  burstResults : List RunResult
  deriving DecidableEq, Repr

/-- Abstract syntax of the persisted JSON document. -/
inductive Jx where
  | null : Jx
  | bool : Bool → Jx
  | num : ℚ → Jx
  | str : String → Jx
  | arr : List Jx → Jx
  | obj : List (String × Jx) → Jx
  deriving Repr

/-- A nullable number field (the ?? null of the timeline builder). -/
def jxOfOptNum : Option ℚ → Jx
  | none => .null
  | some q => .num q

/-- An optional field of the serialised object: JSON.stringify drops the
key when the value is undefined. -/
def optField {α : Type} (k : String) (enc : α → Jx) : Option α → List (String × Jx)
  | none => []
  | some x => [(k, enc x)]

def jsonOfStats (s : Stats) : Jx :=
  .obj [("min", .num s.min), ("max", .num s.max), ("mean", .num s.mean),
        ("p50", .num s.p50), ("p95", .num s.p95), ("p99", .num s.p99),
        ("stdDev", .num s.stdDev)]

/-- A nullable Stats field (the ternary-null of printResults). -/
def jsonOfOptStats : Option Stats → Jx
  | none => .null
  | some s => jsonOfStats s

def jsonOfNodeFailure (nf : NodeFailure) : Jx :=
  .obj [("address", .str nf.address), ("timeouts", .num nf.timeouts),
        ("otherErrors", .num nf.otherErrors)]

def jsonOfErrorWithCount (e : ErrorWithCount) : Jx :=
  .obj [("message", .str e.message), ("count", .num e.count)]

def jsonOfTimelineRequest (t : TimelineRequest) : Jx :=
  .obj ([("index", .num t.index), ("timestamp", .num t.timestamp),
         ("elapsedSec", .num t.elapsedSec), ("duration", .num t.duration),
         ("tacoSigningTimeMs", jxOfOptNum t.tacoSigningTimeMs),
         ("success", .bool t.success)] ++
        optField "error" Jx.str t.error ++
        [("inFlight", .num t.inFlight)])

def stopReasonToString : StopReason → String
  | .duration => "duration"
  | .consecutiveFailures => "consecutive-failures"
  | .completed => "completed"

def jsonOfRunResult (r : RunResult) : Jx :=
  .obj ([("mode", .str r.mode), ("targetRate", .num r.targetRate),
         ("duration", .num r.duration)] ++
    optField "label" Jx.str r.label ++
    [("requests", .obj [("total", .num r.requests.total),
        ("success", .num r.requests.success), ("failed", .num r.requests.failed)]),
     ("latency", jsonOfStats r.latency),
     ("successLatency", jsonOfOptStats r.successLatency),
     ("failureLatency", jsonOfOptStats r.failureLatency),
     ("tacoSigningTime", jsonOfOptStats r.tacoSigningTime),
     ("successTacoSigningTime", jsonOfOptStats r.successTacoSigningTime),
     ("failureTacoSigningTime", jsonOfOptStats r.failureTacoSigningTime),
     ("nodeFailures", .arr (r.nodeFailures.map jsonOfNodeFailure)),
     ("errors", .arr (r.errors.map jsonOfErrorWithCount))] ++
    optField "timeline" (fun tl => Jx.arr (tl.map jsonOfTimelineRequest)) r.timeline ++
    optField "stopReason" (fun sr => Jx.str (stopReasonToString sr)) r.stopReason ++
    optField "consecutiveFailuresAtStop" (fun n => Jx.num n)
      r.consecutiveFailuresAtStop ++
    optField "stoppedEarly" Jx.bool r.stoppedEarly)

def jsonOfConfig (c : TestDataConfig) : Jx :=
  .obj ([("mode", .str c.mode), ("rate", .num c.rate), ("duration", .num c.duration),
         ("rates", .arr (c.rates.map Jx.num)),
         ("burstSizes", .arr (c.burstSizes.map Jx.num)),
         ("batchesPerBurst", .num c.batchesPerBurst)] ++
    optField "domain" Jx.str c.domain ++
    optField "cohortId" (fun n => Jx.num n) c.cohortId ++
    optField "chainId" (fun n => Jx.num n) c.chainId ++
    optField "maxDuration" Jx.num c.maxDuration ++
    optField "maxConsecutiveFailures" (fun n => Jx.num n) c.maxConsecutiveFailures)

/-- saveTestData: the JSON value of the persisted document. -/
def saveTestData (d : TestData) : Jx :=
  .obj [("version", .num d.version), ("timestamp", .str d.timestamp),
        ("config", jsonOfConfig d.config),
        ("steadyResults", .arr (d.steadyResults.map jsonOfRunResult)),
        ("burstResults", .arr (d.burstResults.map jsonOfRunResult))]

/-- Field access by name on a parsed JSON object. -/
def jget (j : Jx) (k : String) : Option Jx :=
  match j with
  | .obj fields => (fields.find? (fun p => p.1 == k)).map (·.2)
  | _ => none

def asNum : Jx → Option ℚ
  | .num q => some q
  | _ => none

def asNat : Jx → Option ℕ
  | .num q => if q.den = 1 ∧ 0 ≤ q.num then some q.num.toNat else none
  | _ => none

def asStr : Jx → Option String
  | .str s => some s
  | _ => none

def asBool : Jx → Option Bool
  | .bool b => some b
  | _ => none

def asArr : Jx → Option (List Jx)
  | .arr l => some l
  | _ => none

def getNum (j : Jx) (k : String) : Option ℚ := (jget j k).bind asNum

def getNat (j : Jx) (k : String) : Option ℕ := (jget j k).bind asNat

def getStr (j : Jx) (k : String) : Option String := (jget j k).bind asStr

/-- Reading of an optional field that JSON.stringify drops when undefined:
absence reads back as undefined, which the model identifies with none. -/
def decodeOpt {α : Type} (dec : Jx → Option α) : Option Jx → Option (Option α)
  | none => some none
  | some v => (dec v).map some

/-- An optional field that JSON.stringify drops when undefined. -/
def getOpt {α : Type} (j : Jx) (k : String) (dec : Jx → Option α) :
    Option (Option α) :=
  decodeOpt dec (jget j k)

/-- Reading of a value the source serialises as null when empty. -/
def decodeNullable {α : Type} (dec : Jx → Option α) : Jx → Option (Option α)
  | .null => some none
  | v => (dec v).map some

/-- A field the source serialises as null when empty. -/
def getNullable {α : Type} (j : Jx) (k : String) (dec : Jx → Option α) :
    Option (Option α) :=
  match jget j k with
  | some v => decodeNullable dec v
  | none => none

def statsOfJson (j : Jx) : Option Stats := do
  let mn ← getNum j "min"
  let mx ← getNum j "max"
  let mean ← getNum j "mean"
  let p50 ← getNum j "p50"
  let p95 ← getNum j "p95"
  let p99 ← getNum j "p99"
  let sd ← getNum j "stdDev"
  pure ⟨mn, mx, mean, p50, p95, p99, sd⟩

def nodeFailureOfJson (j : Jx) : Option NodeFailure := do
  let a ← getStr j "address"
  let t ← getNat j "timeouts"
  let o ← getNat j "otherErrors"
  pure ⟨a, t, o⟩

def errorWithCountOfJson (j : Jx) : Option ErrorWithCount := do
  let m ← getStr j "message"
  let c ← getNat j "count"
  pure ⟨m, c⟩

def timelineRequestOfJson (j : Jx) : Option TimelineRequest := do
  let idx ← getNat j "index"
  let ts ← getNum j "timestamp"
  let el ← getNum j "elapsedSec"
  let du ← getNum j "duration"
  let taco ← getNullable j "tacoSigningTimeMs" asNum
  let su ← (jget j "success").bind asBool
  let err ← getOpt j "error" asStr
  let infl ← getNat j "inFlight"
  pure ⟨idx, ts, el, du, taco, su, err, infl⟩

def stopReasonOfString (s : String) : Option StopReason :=
  if s = "duration" then some .duration
  else if s = "consecutive-failures" then some .consecutiveFailures
  else if s = "completed" then some .completed
  else none

def requestCountsOfJson (j : Jx) : Option RequestCounts := do
  let total ← getNat j "total"
  let suc ← getNat j "success"
  let failed ← getNat j "failed"
  pure ⟨total, suc, failed⟩

def latencyBlockOfJson (j : Jx) :
    Option (Stats × Option Stats × Option Stats × Option Stats × Option Stats ×
      Option Stats) := do
  let latency ← (jget j "latency").bind statsOfJson
  let sl ← getNullable j "successLatency" statsOfJson
  let fl ← getNullable j "failureLatency" statsOfJson
  let tst ← getNullable j "tacoSigningTime" statsOfJson
  let stst ← getNullable j "successTacoSigningTime" statsOfJson
  let ftst ← getNullable j "failureTacoSigningTime" statsOfJson
  pure (latency, sl, fl, tst, stst, ftst)

def attributionOfJson (j : Jx) : Option (List NodeFailure × List ErrorWithCount) := do
  let nf ← (jget j "nodeFailures").bind asArr
  let nodeFailures ← nf.mapM nodeFailureOfJson
  let er ← (jget j "errors").bind asArr
  let errors ← er.mapM errorWithCountOfJson
  pure (nodeFailures, errors)

def advisoryOfJson (j : Jx) :
    Option (Option (List TimelineRequest) × Option StopReason × Option ℕ ×
      Option Bool) := do
  let timeline ← getOpt j "timeline"
    (fun v => (asArr v).bind (fun l => l.mapM timelineRequestOfJson))
  let stopReason ← getOpt j "stopReason" (fun v => (asStr v).bind stopReasonOfString)
  let consec ← getOpt j "consecutiveFailuresAtStop" asNat
  let stoppedEarly ← getOpt j "stoppedEarly" asBool
  pure (timeline, stopReason, consec, stoppedEarly)

def runResultOfJson (j : Jx) : Option RunResult := do
  let mode ← getStr j "mode"
  let targetRate ← getNum j "targetRate"
  let duration ← getNum j "duration"
  let label ← getOpt j "label" asStr
  let requests ← (jget j "requests").bind requestCountsOfJson
  let lat ← latencyBlockOfJson j
  let attr ← attributionOfJson j
  let adv ← advisoryOfJson j
  pure ⟨mode, targetRate, duration, label, requests, lat.1, lat.2.1, lat.2.2.1,
    lat.2.2.2.1, lat.2.2.2.2.1, lat.2.2.2.2.2, attr.1, attr.2, adv.1, adv.2.1,
    adv.2.2.1, adv.2.2.2⟩

def configDefaultsOfJson (j : Jx) :
    Option (Option String × Option ℕ × Option ℕ × Option ℚ × Option ℕ) := do
  let domain ← getOpt j "domain" asStr
  let cohortId ← getOpt j "cohortId" asNat
  let chainId ← getOpt j "chainId" asNat
  let maxDuration ← getOpt j "maxDuration" asNum
  let mcf ← getOpt j "maxConsecutiveFailures" asNat
  pure (domain, cohortId, chainId, maxDuration, mcf)

def configOfJson (j : Jx) : Option TestDataConfig := do
  let mode ← getStr j "mode"
  let rate ← getNum j "rate"
  let duration ← getNum j "duration"
  let ra ← (jget j "rates").bind asArr
  let rates ← ra.mapM asNum
  let bs ← (jget j "burstSizes").bind asArr
  let burstSizes ← bs.mapM asNum
  let batchesPerBurst ← getNum j "batchesPerBurst"
  let defaults ← configDefaultsOfJson j
  pure ⟨mode, rate, duration, rates, burstSizes, batchesPerBurst, defaults.1,
    defaults.2.1, defaults.2.2.1, defaults.2.2.2.1, defaults.2.2.2.2⟩

/-- loadTestData: JSON.parse followed by the field reading the cast
licenses. -/
def loadTestData (j : Jx) : Option TestData := do
  let version ← getNat j "version"
  let timestamp ← getStr j "timestamp"
  let config ← (jget j "config").bind configOfJson
  let sr ← (jget j "steadyResults").bind asArr
  let steadyResults ← sr.mapM runResultOfJson
  let br ← (jget j "burstResults").bind asArr
  let burstResults ← br.mapM runResultOfJson
  pure ⟨version, timestamp, config, steadyResults, burstResults⟩

theorem asNat_natCast (n : ℕ) : asNat (.num (n : ℚ)) = some n := by
  simp [asNat, Rat.den_natCast, Rat.num_natCast]

theorem mapM_loop_roundtrip0 {α : Type} (enc : α → Jx) (dec : Jx → Option α)
    (h : ∀ a, dec (enc a) = some a) (l : List α) (acc : List α) :
    List.mapM.loop dec (l.map enc) acc = some (acc.reverse ++ l) := by
  induction l generalizing acc with
  | nil => simp [List.mapM.loop]
  | cons x xs ih => simp [List.mapM.loop, h, ih]

theorem mapM_roundtrip {α : Type} (enc : α → Jx) (dec : Jx → Option α)
    (h : ∀ a, dec (enc a) = some a) (l : List α) : (l.map enc).mapM dec = some l := by
  have h0 := mapM_loop_roundtrip0 enc dec h l []
  simpa [List.mapM] using h0

theorem statsOfJson_roundtrip (s : Stats) : statsOfJson (jsonOfStats s) = some s := by
  simp [statsOfJson, jsonOfStats, getNum, jget, asNum, List.find?]

theorem decodeNullable_optStats (o : Option Stats) :
    decodeNullable statsOfJson (jsonOfOptStats o) = some o := by
  rcases o with _ | s
  · rfl
  · have h1 : decodeNullable statsOfJson (jsonOfOptStats (some s)) =
        (statsOfJson (jsonOfStats s)).map some := rfl
    rw [h1, statsOfJson_roundtrip]
    rfl

theorem decodeNullable_optNum (o : Option ℚ) :
    decodeNullable asNum (jxOfOptNum o) = some o := by
  rcases o with _ | q
  · rfl
  · simp [jxOfOptNum, decodeNullable, asNum]

theorem find?_optField_of_ne {α : Type} (k k' : String) (enc : α → Jx) (o : Option α)
    (h : (k == k') = false) :
    (optField k enc o).find? (fun p => p.1 == k') = none := by
  rcases o <;> simp [optField, h]

theorem find?_optField_self {α : Type} (k : String) (enc : α → Jx) (o : Option α) :
    (optField k enc o).find? (fun p => p.1 == k) = o.map (fun x => (k, enc x)) := by
  rcases o <;> simp [optField]

theorem decodeOpt_map {α : Type} (dec : Jx → Option α) (enc : α → Jx) (o : Option α)
    (h : ∀ a, dec (enc a) = some a) :
    decodeOpt dec (Option.map (fun x => enc x) o) = some o := by
  rcases o <;> simp [decodeOpt, h]

theorem decodeOpt_bind {α : Type} (dec : Jx → Option α) (enc : α → Jx)
    (h : ∀ a, dec (enc a) = some a) (o : Option α) :
    decodeOpt dec (o.bind fun x => some (enc x)) = some o := by
  rcases o <;> simp [decodeOpt, h]

theorem nodeFailureOfJson_roundtrip (nf : NodeFailure) :
    nodeFailureOfJson (jsonOfNodeFailure nf) = some nf := by
  simp [nodeFailureOfJson, jsonOfNodeFailure, getStr, getNat, jget, asStr,
    asNat_natCast, List.find?]

theorem errorWithCountOfJson_roundtrip (e : ErrorWithCount) :
    errorWithCountOfJson (jsonOfErrorWithCount e) = some e := by
  simp [errorWithCountOfJson, jsonOfErrorWithCount, getStr, getNat, jget, asStr,
    asNat_natCast, List.find?]

theorem timelineRequestOfJson_roundtrip (t : TimelineRequest) :
    timelineRequestOfJson (jsonOfTimelineRequest t) = some t := by
  obtain ⟨idx, ts, el, du, taco, su, err, infl⟩ := t
  simp [timelineRequestOfJson, jsonOfTimelineRequest, getNum, getNat, getOpt,
    getNullable, jget, asNum, asStr, asBool, asNat_natCast, decodeNullable_optNum,
    find?_optField_of_ne, find?_optField_self, decodeOpt_map]

theorem stopReason_roundtrip (sr : StopReason) :
    stopReasonOfString (stopReasonToString sr) = some sr := by
  cases sr <;> rfl

theorem requestCountsOfJson_roundtrip (c : RequestCounts) :
    requestCountsOfJson (.obj [("total", .num c.total), ("success", .num c.success),
      ("failed", .num c.failed)]) = some c := by
  simp [requestCountsOfJson, getNat, jget, asNat_natCast, List.find?]

theorem latencyBlockOfJson_roundtrip (r : RunResult) :
    latencyBlockOfJson (jsonOfRunResult r) =
      some (r.latency, r.successLatency, r.failureLatency, r.tacoSigningTime,
        r.successTacoSigningTime, r.failureTacoSigningTime) := by
  simp [latencyBlockOfJson, jsonOfRunResult, getNullable, jget, List.find?_append,
    find?_optField_of_ne, find?_optField_self, List.find?, statsOfJson_roundtrip,
    decodeNullable_optStats]

theorem attributionOfJson_roundtrip (r : RunResult) :
    attributionOfJson (jsonOfRunResult r) = some (r.nodeFailures, r.errors) := by
  simp [attributionOfJson, jsonOfRunResult, jget, List.find?_append,
    find?_optField_of_ne, find?_optField_self, List.find?, asArr,
    mapM_loop_roundtrip0 jsonOfNodeFailure nodeFailureOfJson
      nodeFailureOfJson_roundtrip,
    mapM_loop_roundtrip0 jsonOfErrorWithCount errorWithCountOfJson
      errorWithCountOfJson_roundtrip]

theorem advisoryOfJson_roundtrip (r : RunResult) :
    advisoryOfJson (jsonOfRunResult r) =
      some (r.timeline, r.stopReason, r.consecutiveFailuresAtStop,
        r.stoppedEarly) := by
  simp [advisoryOfJson, jsonOfRunResult, getOpt, jget, List.find?_append,
    find?_optField_of_ne, find?_optField_self, List.find?, decodeOpt_map, asArr,
    asStr, asBool, asNat_natCast, stopReason_roundtrip,
    decodeOpt_bind asNat (fun n => Jx.num (n : ℚ)) asNat_natCast,
    mapM_roundtrip jsonOfTimelineRequest timelineRequestOfJson
      timelineRequestOfJson_roundtrip,
    mapM_loop_roundtrip0 jsonOfTimelineRequest timelineRequestOfJson
      timelineRequestOfJson_roundtrip]

theorem runResultOfJson_roundtrip (r : RunResult) :
    runResultOfJson (jsonOfRunResult r) = some r := by
  have hmode : getStr (jsonOfRunResult r) "mode" = some r.mode := by
    simp [jsonOfRunResult, getStr, jget, List.find?, asStr]
  have htr : getNum (jsonOfRunResult r) "targetRate" = some r.targetRate := by
    simp [jsonOfRunResult, getNum, jget, List.find?, asNum]
  have hdur : getNum (jsonOfRunResult r) "duration" = some r.duration := by
    simp [jsonOfRunResult, getNum, jget, List.find?, asNum]
  have hlabel : getOpt (jsonOfRunResult r) "label" asStr = some r.label := by
    simp [jsonOfRunResult, getOpt, jget, List.find?, List.find?_append,
      find?_optField_self, find?_optField_of_ne, decodeOpt_map, asStr]
  have hreq : (jget (jsonOfRunResult r) "requests").bind requestCountsOfJson =
      some r.requests := by
    simp [jsonOfRunResult, jget, List.find?_append, find?_optField_of_ne,
      List.find?, requestCountsOfJson_roundtrip]
  simp [runResultOfJson, hmode, htr, hdur, hlabel, hreq,
    latencyBlockOfJson_roundtrip, attributionOfJson_roundtrip,
    advisoryOfJson_roundtrip]

theorem configDefaultsOfJson_roundtrip (c : TestDataConfig) :
    configDefaultsOfJson (jsonOfConfig c) =
      some (c.domain, c.cohortId, c.chainId, c.maxDuration,
        c.maxConsecutiveFailures) := by
  simp [configDefaultsOfJson, jsonOfConfig, getOpt, jget, List.find?_append,
    find?_optField_of_ne, find?_optField_self, List.find?, decodeOpt_map, asStr,
    asNum, asNat_natCast,
    decodeOpt_bind asNat (fun n => Jx.num (n : ℚ)) asNat_natCast]

theorem configOfJson_roundtrip (c : TestDataConfig) :
    configOfJson (jsonOfConfig c) = some c := by
  have hmode : getStr (jsonOfConfig c) "mode" = some c.mode := by
    simp [jsonOfConfig, getStr, jget, List.find?, asStr]
  have hrate : getNum (jsonOfConfig c) "rate" = some c.rate := by
    simp [jsonOfConfig, getNum, jget, List.find?, asNum]
  have hdur : getNum (jsonOfConfig c) "duration" = some c.duration := by
    simp [jsonOfConfig, getNum, jget, List.find?, asNum]
  have hbpb : getNum (jsonOfConfig c) "batchesPerBurst" = some c.batchesPerBurst := by
    simp [jsonOfConfig, getNum, jget, List.find?, asNum]
  have hrates : (jget (jsonOfConfig c) "rates").bind asArr =
      some (c.rates.map Jx.num) := by
    simp [jsonOfConfig, jget, List.find?, asArr]
  have hbs : (jget (jsonOfConfig c) "burstSizes").bind asArr =
      some (c.burstSizes.map Jx.num) := by
    simp [jsonOfConfig, jget, List.find?, asArr]
  simp [configOfJson, hmode, hrate, hdur, hbpb, hrates, hbs,
    configDefaultsOfJson_roundtrip,
    mapM_loop_roundtrip0 Jx.num asNum (fun q => rfl)]

/-- C9: serialising a TestData document (hence every RunSummary it
contains) with saveTestData and reading it back with loadTestData yields a
value equal field for field to the original: dropped undefined fields read
back as absent, null fields as empty, and every list and nested record is
reconstructed exactly. -/
theorem saveTestData_loadTestData_roundtrip (d : TestData) :
    loadTestData (saveTestData d) = some d := by
  obtain ⟨version, timestamp, config, steadyResults, burstResults⟩ := d
  simp [loadTestData, saveTestData, getStr, getNat, jget, asStr, asArr, asNat_natCast,
    List.find?, configOfJson_roundtrip,
    mapM_loop_roundtrip0 jsonOfRunResult runResultOfJson runResultOfJson_roundtrip]

end TacoPerf
